import Mathlib

/-!
# Verification of the NeuroCode analyzer core

This file is a shallow embedding, in Lean 4, of the parts of the NeuroCode
code-analysis backend that its design document makes claims about:

* `backend/merkle/hash_calculator.py` — the Merkle fingerprint engine
  (`HashCalculator.hash_module` / `hash_class` / `hash_function` /
  `hash_variable` / `hash_import` / `compare_hashes`);
* `backend/merkle/change_detector.py` — `ChangeDetector.get_affected_by_change`;
* `backend/parser/project_parser.py` — the three-pass project analyzer
  (definition extraction, hierarchical IDs, relative-import resolution,
  pass-3 call resolution, pass-2 error handling, cyclomatic complexity);
* `backend/parser/tree_sitter_parser.py` — the per-file parser
  (`_parse_function`, `_calculate_complexity`).

Modelling conventions:

* Python strings are Lean `String`s; Python string comparison (used by
  `sorted`) is embedded as code-point lexicographic comparison on the
  character lists (`charsLe`), which is kernel-computable.
* SHA-256 digests are modelled as free constructors (`HashV`): the digest of
  a component list is the list itself, kept abstract behind `listDigest`.
  This encodes the two assumptions the design itself makes: SHA-256 is
  collision-free, and the NUL separator is unambiguous because neither a
  digest (hex) nor a source name contains a NUL byte.  `_compute_hash`
  drops falsy (empty-string) components before joining; `compute_hash`
  mirrors that with the `HashV.keep` filter — digests are never empty.
* Python `str | None` fields are `Option String`; Python truthiness on them
  (`if x:`) is `strTruthy`, which is false for both `None` and `""`.
* Python dicts used by the resolver are association lists where an insert
  prepends (the new binding shadows the old, exactly like a dict overwrite
  as observed through lookups).
* tree-sitter syntax nodes are the mutual inductive `PNode` (node type,
  source text, named fields, children); using mutual inductives rather than
  nested `List`s keeps every recursion structural and kernel-computable.
-/

/-! ## Python string ordering, on character lists -/

/-- Strict code-point lexicographic order on character lists (Python `<`
on strings). -/
def charsLt : List Char → List Char → Bool
  | [], [] => false
  | [], _ :: _ => true
  | _ :: _, [] => false
  | a :: as, b :: bs => if a = b then charsLt as bs else decide (a < b)

/-- Non-strict code-point lexicographic order on character lists (Python
`<=` on strings, the order used by `sorted`). -/
def charsLe : List Char → List Char → Bool
  | [], _ => true
  | _ :: _, [] => false
  | a :: as, b :: bs => if a = b then charsLe as bs else decide (a < b)

/-- Python string `<=` as used by `sorted`. -/
def pyLe (a b : String) : Bool := charsLe a.data b.data

/-- Python string `<`. -/
def pyLt (a b : String) : Bool := charsLt a.data b.data

theorem charsLe_refl : ∀ l, charsLe l l = true
  | [] => rfl
  | _ :: as => by simp [charsLe, charsLe_refl as]

theorem charsLe_total : ∀ a b, charsLe a b = true ∨ charsLe b a = true
  | [], _ => Or.inl rfl
  | _ :: _, [] => Or.inr rfl
  | a :: as, b :: bs => by
    by_cases hab : a = b
    · subst hab
      simpa [charsLe] using charsLe_total as bs
    · rcases lt_or_gt_of_ne hab with h | h
      · exact Or.inl (by simp [charsLe, hab, h])
      · exact Or.inr (by simp [charsLe, Ne.symm hab, h])

theorem charsLe_antisymm : ∀ a b, charsLe a b = true → charsLe b a = true → a = b
  | [], [], _, _ => rfl
  | [], _ :: _, _, h2 => by simp [charsLe] at h2
  | _ :: _, [], h1, _ => by simp [charsLe] at h1
  | a :: as, b :: bs, h1, h2 => by
    by_cases hab : a = b
    · subst hab
      simp only [charsLe, if_pos rfl] at h1 h2
      exact congrArg (a :: ·) (charsLe_antisymm as bs h1 h2)
    · simp only [charsLe, if_neg hab, if_neg (Ne.symm hab), decide_eq_true_eq] at h1 h2
      exact absurd h2 (lt_asymm h1)

theorem charsLe_trans : ∀ a b c, charsLe a b = true → charsLe b c = true →
    charsLe a c = true
  | [], _, _, _, _ => rfl
  | _ :: _, [], _, h1, _ => by simp [charsLe] at h1
  | _ :: _, _ :: _, [], _, h2 => by simp [charsLe] at h2
  | a :: as, b :: bs, c :: cs, h1, h2 => by
    by_cases hab : a = b
    · subst hab
      by_cases hac : a = c
      · subst hac
        simp only [charsLe, if_pos rfl] at h1 h2 ⊢
        exact charsLe_trans as bs cs h1 h2
      · simpa [charsLe, hac] using (by simpa [charsLe, hac] using h2)
    · by_cases hbc : b = c
      · subst hbc
        simpa [charsLe, hab] using (by simpa [charsLe, hab] using h1)
      · simp only [charsLe, if_neg hab, if_neg hbc, decide_eq_true_eq] at h1 h2
        have hac2 : a < c := lt_trans h1 h2
        simp [charsLe, ne_of_lt hac2, hac2]

theorem string_data_inj {a b : String} (h : a.data = b.data) : a = b := by
  cases a
  cases b
  exact congrArg String.mk h

theorem pyLe_refl (a : String) : pyLe a a = true := charsLe_refl _

theorem pyLe_total (a b : String) : pyLe a b = true ∨ pyLe b a = true :=
  charsLe_total _ _

theorem pyLe_antisymm {a b : String} (h1 : pyLe a b = true) (h2 : pyLe b a = true) :
    a = b :=
  string_data_inj (charsLe_antisymm _ _ h1 h2)

theorem pyLe_trans {a b c : String} (h1 : pyLe a b = true) (h2 : pyLe b c = true) :
    pyLe a c = true :=
  charsLe_trans _ _ _ h1 h2

/-! ## The hash model

`HashCalculator._compute_hash(components)` is
`sha256("\x00".join(c for c in components if c))`.  A digest is modelled as
the (filtered) component list itself, wrapped in free constructors, so that
digest equality in the model coincides with digest equality in the code
under the design assumptions (collision-free SHA-256, NUL-free components).
A component is either a raw string (`HashV.leaf`) or a child digest. -/

inductive HashV : Type where
  | leaf (s : String) : HashV
  | hnil : HashV
  | hcons (c : HashV) (rest : HashV) : HashV
deriving DecidableEq

/-- The (injective) digest of a component list. -/
def listDigest : List HashV → HashV
  | [] => .hnil
  | c :: cs => .hcons c (listDigest cs)

/-- Python truthiness of a component in `_compute_hash` (`... if c`):
an empty string is dropped, every digest (a 64-char hex string) is kept. -/
def HashV.keep : HashV → Bool
  | .leaf s => !(s == "")
  | _ => true

/-- `HashCalculator._compute_hash`: drop falsy components, join with NUL,
SHA-256 the result. -/
def compute_hash (components : List HashV) : HashV :=
  listDigest (components.filter HashV.keep)

theorem listDigest_inj : ∀ {l₁ l₂ : List HashV}, listDigest l₁ = listDigest l₂ →
    l₁ = l₂
  | [], [], _ => rfl
  | [], _ :: _, h => by simp [listDigest] at h
  | _ :: _, [], h => by simp [listDigest] at h
  | a :: as, b :: bs, h => by
    simp only [listDigest, HashV.hcons.injEq] at h
    exact h.1 ▸ congrArg _ (listDigest_inj h.2)

theorem keep_listDigest (l : List HashV) : HashV.keep (listDigest l) = true := by
  cases l <;> rfl

theorem keep_compute_hash (l : List HashV) : HashV.keep (compute_hash l) = true :=
  keep_listDigest _

theorem compute_hash_inj {l₁ l₂ : List HashV} (h : compute_hash l₁ = compute_hash l₂) :
    l₁.filter HashV.keep = l₂.filter HashV.keep :=
  listDigest_inj h

/-! ### Ordering of hash values

The code sorts sibling digests (`sorted(...)` on hex strings).  Any total
antisymmetric order yields the same canonical form, so the model sorts
`HashV` by a structural lexicographic order. -/

def HashV.ble : HashV → HashV → Bool
  | .leaf a, .leaf b => pyLe a b
  | .leaf _, _ => true
  | .hnil, .leaf _ => false
  | .hnil, _ => true
  | .hcons _ _, .leaf _ => false
  | .hcons _ _, .hnil => false
  | .hcons a as, .hcons b bs => if a = b then HashV.ble as bs else HashV.ble a b

theorem hble_total : ∀ a b : HashV, HashV.ble a b = true ∨ HashV.ble b a = true
  | .leaf a, .leaf b => by simpa [HashV.ble] using pyLe_total a b
  | .leaf _, .hnil => Or.inl rfl
  | .leaf _, .hcons _ _ => Or.inl rfl
  | .hnil, .leaf _ => Or.inr rfl
  | .hnil, .hnil => Or.inl rfl
  | .hnil, .hcons _ _ => Or.inl rfl
  | .hcons _ _, .leaf _ => Or.inr rfl
  | .hcons _ _, .hnil => Or.inr rfl
  | .hcons a as, .hcons b bs => by
    by_cases hab : a = b
    · subst hab
      simpa [HashV.ble] using hble_total as bs
    · simpa [HashV.ble, hab, Ne.symm hab] using hble_total a b

theorem hble_antisymm : ∀ a b : HashV, HashV.ble a b = true → HashV.ble b a = true →
    a = b
  | .leaf a, .leaf b, h1, h2 => by
    simp only [HashV.ble] at h1 h2
    exact congrArg HashV.leaf (pyLe_antisymm h1 h2)
  | .leaf _, .hnil, _, h2 => by simp [HashV.ble] at h2
  | .leaf _, .hcons _ _, _, h2 => by simp [HashV.ble] at h2
  | .hnil, .leaf _, h1, _ => by simp [HashV.ble] at h1
  | .hnil, .hnil, _, _ => rfl
  | .hnil, .hcons _ _, _, h2 => by simp [HashV.ble] at h2
  | .hcons _ _, .leaf _, h1, _ => by simp [HashV.ble] at h1
  | .hcons _ _, .hnil, h1, _ => by simp [HashV.ble] at h1
  | .hcons a as, .hcons b bs, h1, h2 => by
    by_cases hab : a = b
    · subst hab
      simp only [HashV.ble, if_pos rfl] at h1 h2
      exact congrArg _ (hble_antisymm as bs h1 h2)
    · simp only [HashV.ble, if_neg hab, if_neg (Ne.symm hab)] at h1 h2
      exact absurd (hble_antisymm a b h1 h2) hab

theorem hble_trans : ∀ a b c : HashV, HashV.ble a b = true → HashV.ble b c = true →
    HashV.ble a c = true
  | .leaf _, .leaf _, .leaf _, h1, h2 => by
    simp only [HashV.ble] at h1 h2 ⊢
    exact pyLe_trans h1 h2
  | .leaf _, _, .hnil, _, _ => rfl
  | .leaf _, _, .hcons _ _, _, _ => rfl
  | .hnil, .leaf _, _, h1, _ => by simp [HashV.ble] at h1
  | .hnil, .hnil, .leaf _, _, h2 => by simp [HashV.ble] at h2
  | .hnil, .hcons _ _, .leaf _, _, h2 => by simp [HashV.ble] at h2
  | .hnil, _ , .hnil, _, _ => rfl
  | .hnil, _, .hcons _ _, _, _ => rfl
  | .hcons _ _, .leaf _, _, h1, _ => by simp [HashV.ble] at h1
  | .hcons _ _, .hnil, _, h1, _ => by simp [HashV.ble] at h1
  | .hcons _ _, .hcons _ _, .leaf _, _, h2 => by simp [HashV.ble] at h2
  | .hcons _ _, .hcons _ _, .hnil, _, h2 => by simp [HashV.ble] at h2
  | .hcons a as, .hcons b bs, .hcons c cs, h1, h2 => by
    by_cases hab : a = b
    · subst hab
      by_cases hac : a = c
      · subst hac
        simp only [HashV.ble, if_pos rfl] at h1 h2 ⊢
        exact hble_trans as bs cs h1 h2
      · simp only [HashV.ble, if_neg hac] at h2 ⊢
        exact h2
    · by_cases hbc : b = c
      · subst hbc
        simp only [HashV.ble, if_neg hab] at h1 ⊢
        exact h1
      · simp only [HashV.ble, if_neg hab, if_neg hbc] at h1 h2
        by_cases hac : a = c
        · subst hac
          exact absurd (hble_antisymm a b h1 h2) hab
        · simp only [HashV.ble, if_neg hac]
          exact hble_trans a b c h1 h2

instance : IsTotal HashV (fun a b => HashV.ble a b = true) := ⟨hble_total⟩

instance : IsTrans HashV (fun a b => HashV.ble a b = true) := ⟨hble_trans⟩

instance : IsAntisymm HashV (fun a b => HashV.ble a b = true) := ⟨hble_antisymm⟩

/-- `sorted` on a list of digests. -/
def hsort (l : List HashV) : List HashV :=
  List.insertionSort (fun a b => HashV.ble a b = true) l

/-- `sorted` on a list of strings. -/
def strSort (l : List String) : List String :=
  List.insertionSort (fun a b => pyLe a b = true) l

/-- Python tuple comparison on `(key, value)` pairs, used by
`sorted(imp.aliases.items())`. -/
def pairLe (p q : String × String) : Bool :=
  if p.1 = q.1 then pyLe p.2 q.2 else pyLt p.1 q.1

/-- `sorted` on dict items. -/
def pairSort (l : List (String × String)) : List (String × String) :=
  List.insertionSort (fun p q => pairLe p q = true) l

theorem hsort_perm (l : List HashV) : List.Perm (hsort l) l :=
  List.perm_insertionSort _ l

/-- Sorting digests is canonical: permuted inputs sort identically. -/
theorem hsort_canon {l₁ l₂ : List HashV} (h : List.Perm l₁ l₂) : hsort l₁ = hsort l₂ :=
  List.eq_of_perm_of_sorted ((hsort_perm l₁).trans (h.trans (hsort_perm l₂).symm))
    (List.sorted_insertionSort _ l₁) (List.sorted_insertionSort _ l₂)

theorem hsort_count (a : HashV) (l : List HashV) : (hsort l).count a = l.count a :=
  (hsort_perm l).count_eq a

/-! ## Data model (`backend/parser/models.py`)

Fields not read by any embedded operation (source locations, references,
mutable output slots) are omitted.  `str | None` fields are `Option String`;
plain `str` fields with `""` defaults are `String`. -/

/-- Python truthiness of a `str | None` value: `None` and `""` are falsy. -/
def strTruthy : Option String → Bool
  | none => false
  | some s => !(s == "")

/-- The string carried by a `str | None` value (`""` for `None`). -/
def optStr : Option String → String
  | none => ""
  | some s => s

structure ParameterInfo where
  name : String
  type_hint : Option String
  default_value : Option String
  is_args : Bool
  is_kwargs : Bool
deriving DecidableEq

structure DecoratorInfo where
  name : String
  arguments : List String
deriving DecidableEq

/-- `DecoratorInfo.qualified_name`: the decorator call signature as written. -/
def DecoratorInfo.qualified_name (d : DecoratorInfo) : String :=
  if d.arguments ≠ [] then "@" ++ d.name ++ "(" ++ String.intercalate ", " d.arguments ++ ")"
  else "@" ++ d.name

structure VariableInfo where
  id : String
  name : String
  type_hint : Option String
  initial_value : Option String
  scope : String
  is_constant : Bool
deriving DecidableEq

structure ImportInfo where
  id : String
  module_name : String
  imported_names : List String
  aliases : List (String × String)
  is_relative : Bool
  relative_level : Nat
  resolved_module : String
deriving DecidableEq

structure FunctionInfo where
  id : String
  name : String
  qualified_name : String
  parameters : List ParameterInfo
  return_type : Option String
  decorators : List DecoratorInfo
  docstring : Option String
  is_async : Bool
  is_generator : Bool
  is_method : Bool
  is_classmethod : Bool
  is_staticmethod : Bool
  is_property : Bool
  complexity : Nat
  «variables» : List VariableInfo
  calls : List String
  body_hash : String
deriving DecidableEq

mutual
inductive ClassInfo : Type where
  | mk (id name qualified_name : String) (bases : List String)
      (decorators : List DecoratorInfo) (docstring : Option String)
      (is_abstract : Bool) (methods : List FunctionInfo)
      (class_variables instance_variables : List VariableInfo)
      (nested_classes : ClassInfos) (resolved_bases : List String) : ClassInfo
deriving DecidableEq
inductive ClassInfos : Type where
  | nil : ClassInfos
  | cons (c : ClassInfo) (cs : ClassInfos) : ClassInfos
deriving DecidableEq
end

def ClassInfo.id : ClassInfo → String
  | .mk i _ _ _ _ _ _ _ _ _ _ _ => i

def ClassInfo.name : ClassInfo → String
  | .mk _ n _ _ _ _ _ _ _ _ _ _ => n

def ClassInfo.qualified_name : ClassInfo → String
  | .mk _ _ q _ _ _ _ _ _ _ _ _ => q

def ClassInfo.bases : ClassInfo → List String
  | .mk _ _ _ b _ _ _ _ _ _ _ _ => b

def ClassInfo.methods : ClassInfo → List FunctionInfo
  | .mk _ _ _ _ _ _ _ m _ _ _ _ => m

def ClassInfo.nested_classes : ClassInfo → ClassInfos
  | .mk _ _ _ _ _ _ _ _ _ _ n _ => n

structure ModuleInfo where
  id : String
  path : String
  name : String
  package : String
  docstring : Option String
  imports : List ImportInfo
  classes : List ClassInfo
  functions : List FunctionInfo
  «variables» : List VariableInfo
  lines_of_code : Nat
deriving DecidableEq

/-- `ModuleInfo.qualified_name`. -/
def ModuleInfo.qualified_name (m : ModuleInfo) : String :=
  if m.package ≠ "" then m.package ++ "." ++ m.name else m.name

/-! ## The fingerprint engine (`backend/merkle/hash_calculator.py`)

Every function takes the calculator's `include_docstrings` flag (default
`true` in the source) as `incDoc`. -/

/-- `HashCalculator.hash_variable`. -/
def hash_variable (var : VariableInfo) : HashV :=
  compute_hash
    ([HashV.leaf var.name]
      ++ (if strTruthy var.type_hint then [HashV.leaf (optStr var.type_hint)] else [])
      ++ (if strTruthy var.initial_value then [HashV.leaf (optStr var.initial_value)] else []))

/-- `HashCalculator.hash_import`. -/
def hash_import (imp : ImportInfo) : HashV :=
  compute_hash
    ([HashV.leaf imp.module_name]
      ++ (if imp.is_relative then [HashV.leaf ("relative:" ++ toString imp.relative_level)] else [])
      ++ (strSort imp.imported_names).map HashV.leaf
      ++ (pairSort imp.aliases).map (fun p => HashV.leaf (p.1 ++ "=" ++ p.2)))

/-- The parameter component `name[:type][=default]` with `*`/`**` prefixes,
built exactly as in `HashCalculator.hash_function`. -/
def paramRender (p : ParameterInfo) : String :=
  let s := p.name
  let s := if strTruthy p.type_hint then s ++ ":" ++ optStr p.type_hint else s
  let s := if strTruthy p.default_value then s ++ "=" ++ optStr p.default_value else s
  let s := if p.is_args then "*" ++ s else s
  let s := if p.is_kwargs then "**" ++ s else s
  s

/-- `HashCalculator.hash_function`. -/
def hash_function (incDoc : Bool) (func : FunctionInfo) : HashV :=
  compute_hash
    ([HashV.leaf func.name]
      ++ func.parameters.map (fun p => HashV.leaf (paramRender p))
      ++ (if strTruthy func.return_type then [HashV.leaf ("->" ++ optStr func.return_type)] else [])
      ++ func.decorators.map (fun d => HashV.leaf d.qualified_name)
      ++ (if func.is_async then [HashV.leaf "async"] else [])
      ++ (if func.is_generator then [HashV.leaf "generator"] else [])
      ++ (if incDoc && strTruthy func.docstring then [HashV.leaf (optStr func.docstring)] else [])
      ++ (strSort func.calls).map HashV.leaf
      ++ hsort (func.variables.map hash_variable)
      ++ (if func.body_hash ≠ "" then [HashV.leaf func.body_hash] else []))

mutual
/-- `HashCalculator.hash_class`. -/
def hash_class (incDoc : Bool) : ClassInfo → HashV
  | .mk _ name _ bases decorators docstring _ methods cvars ivars nested _ =>
    compute_hash
      ([HashV.leaf name]
        ++ (strSort bases).map HashV.leaf
        ++ decorators.map (fun d => HashV.leaf d.qualified_name)
        ++ (if incDoc && strTruthy docstring then [HashV.leaf (optStr docstring)] else [])
        ++ hsort (methods.map (hash_function incDoc))
        ++ hsort (cvars.map hash_variable)
        ++ hsort (ivars.map hash_variable)
        ++ hsort (hash_classes incDoc nested))
/-- The hashes of a list of nested classes, in order. -/
def hash_classes (incDoc : Bool) : ClassInfos → List HashV
  | .nil => []
  | .cons c cs => hash_class incDoc c :: hash_classes incDoc cs
end

/-- `HashCalculator.hash_module`. -/
def hash_module (incDoc : Bool) (m : ModuleInfo) : HashV :=
  compute_hash
    ([HashV.leaf m.path]
      ++ (if incDoc && strTruthy m.docstring then [HashV.leaf (optStr m.docstring)] else [])
      ++ hsort (m.imports.map hash_import)
      ++ hsort (m.classes.map (hash_class incDoc))
      ++ hsort (m.functions.map (hash_function incDoc))
      ++ hsort (m.variables.map hash_variable))

/-! ## Generic lemmas about the component machinery -/

theorem filter_keep_of_all {l : List HashV} (h : ∀ x ∈ l, HashV.keep x = true) :
    l.filter HashV.keep = l :=
  List.filter_eq_self.mpr h

theorem at_append_ne_empty (s : String) : "@" ++ s ≠ "" := by
  intro h
  have h2 := congrArg String.length h
  rw [String.length_append, show ("@" : String).length = 1 from rfl,
    show ("" : String).length = 0 from rfl] at h2
  omega

theorem dec_qualified_name_ne_empty (d : DecoratorInfo) : d.qualified_name ≠ "" := by
  unfold DecoratorInfo.qualified_name
  split
  · rw [show "@" ++ d.name ++ "(" ++ String.intercalate ", " d.arguments ++ ")" =
      "@" ++ (d.name ++ "(" ++ String.intercalate ", " d.arguments ++ ")") by
        simp [String.append_assoc]]
    exact at_append_ne_empty _
  · exact at_append_ne_empty _

theorem keep_dec_leaf (d : DecoratorInfo) :
    HashV.keep (HashV.leaf d.qualified_name) = true := by
  simp [HashV.keep, dec_qualified_name_ne_empty d]

theorem filter_keep_decSeg (ds : List DecoratorInfo) :
    (ds.map (fun d => HashV.leaf d.qualified_name)).filter HashV.keep =
      ds.map (fun d => HashV.leaf d.qualified_name) := by
  refine filter_keep_of_all fun x hx => ?_
  rcases List.mem_map.mp hx with ⟨d, _, rfl⟩
  exact keep_dec_leaf d

theorem filter_keep_hsort_funcs (incDoc : Bool) (fs : List FunctionInfo) :
    (hsort (fs.map (hash_function incDoc))).filter HashV.keep =
      hsort (fs.map (hash_function incDoc)) := by
  refine filter_keep_of_all fun x hx => ?_
  have hx2 : x ∈ fs.map (hash_function incDoc) := (hsort_perm _).mem_iff.mp hx
  rcases List.mem_map.mp hx2 with ⟨f, _, rfl⟩
  exact keep_compute_hash _

/-- Replacing one element of a list by a digest with a different value changes
the canonical sorted form. -/
theorem hsort_replace_ne {x y : HashV} (hxy : x ≠ y) (u v : List HashV) :
    hsort (u ++ x :: v) ≠ hsort (u ++ y :: v) := by
  intro h
  have hc := congrArg (List.count x) h
  rw [hsort_count, hsort_count] at hc
  simp [List.count_append, List.count_cons, hxy, Ne.symm hxy] at hc

/-- If two modules agree on every hashed field except their function lists,
and the sorted function-hash lists differ, the module hashes differ. -/
theorem hash_module_ne_of_funcs (incDoc : Bool) {m1 m2 : ModuleInfo}
    (hpath : m1.path = m2.path) (hdoc : m1.docstring = m2.docstring)
    (himp : m1.imports = m2.imports) (hcls : m1.classes = m2.classes)
    (hvar : m1.variables = m2.variables)
    (hfun : hsort (m1.functions.map (hash_function incDoc)) ≠
      hsort (m2.functions.map (hash_function incDoc))) :
    hash_module incDoc m1 ≠ hash_module incDoc m2 := by
  intro h
  unfold hash_module at h
  have h2 := compute_hash_inj h
  rw [hpath, hdoc, himp, hcls, hvar] at h2
  simp only [List.filter_append] at h2
  have h3 := List.append_cancel_right h2
  have h4 := List.append_cancel_left h3
  rw [filter_keep_hsort_funcs, filter_keep_hsort_funcs] at h4
  exact hfun h4

/-- Changing (only) the `body_hash` field changes `hash_function`. -/
theorem hash_function_ne_of_body_hash (incDoc : Bool) (f1 : FunctionInfo) (b2 : String)
    (hb : f1.body_hash ≠ b2) :
    hash_function incDoc f1 ≠ hash_function incDoc { f1 with body_hash := b2 } := by
  intro h
  unfold hash_function at h
  have h2 := compute_hash_inj h
  simp only [List.filter_append] at h2
  have h3 := List.append_cancel_left h2
  by_cases hb1 : f1.body_hash = ""
  · have hb2 : b2 ≠ "" := fun h0 => hb (by rw [hb1, h0])
    simp [hb1, hb2, HashV.keep] at h3
  · by_cases hb2 : b2 = ""
    · simp [hb1, hb2, HashV.keep] at h3
    · simp [hb1, hb2, HashV.keep] at h3
      exact hb h3

/-- Swapping two decorators with different written forms changes
`hash_function`. -/
theorem hash_function_ne_of_dec_swap (incDoc : Bool) (f1 : FunctionInfo)
    (u v w : List DecoratorInfo) (d1 d2 : DecoratorInfo)
    (hd : f1.decorators = u ++ d1 :: v ++ d2 :: w)
    (hne : d1.qualified_name ≠ d2.qualified_name) :
    hash_function incDoc f1 ≠
      hash_function incDoc { f1 with decorators := u ++ d2 :: v ++ d1 :: w } := by
  intro h
  unfold hash_function at h
  have h2 := compute_hash_inj h
  rw [hd] at h2
  simp only [List.filter_append] at h2
  have h3 := List.append_cancel_right h2
  have h4 := List.append_cancel_right h3
  have h5 := List.append_cancel_right h4
  have h6 := List.append_cancel_right h5
  have h7 := List.append_cancel_right h6
  have h8 := List.append_cancel_right h7
  have h9 := List.append_cancel_left h8
  rw [filter_keep_decSeg, filter_keep_decSeg] at h9
  simp only [List.map_append, List.map_cons, List.append_assoc, List.cons_append] at h9
  have h10 := List.append_cancel_left h9
  simp only [List.cons.injEq, HashV.leaf.injEq] at h10
  exact hne h10.1

/-- C7: permuting the sibling lists of a module record (imports, top-level
classes, top-level functions, variables) does not change
`HashCalculator.hash_module`, because sibling hashes are sorted before being
joined into the module's component list. -/
theorem C7_sibling_order_insensitive (incDoc : Bool) (m1 m2 : ModuleInfo)
    (hpath : m1.path = m2.path) (hdoc : m1.docstring = m2.docstring)
    (himp : List.Perm m1.imports m2.imports)
    (hcls : List.Perm m1.classes m2.classes)
    (hfun : List.Perm m1.functions m2.functions)
    (hvar : List.Perm m1.variables m2.variables) :
    hash_module incDoc m1 = hash_module incDoc m2 := by
  unfold hash_module
  rw [hpath, hdoc, hsort_canon (himp.map hash_import),
    hsort_canon (hcls.map (hash_class incDoc)),
    hsort_canon (hfun.map (hash_function incDoc)),
    hsort_canon (hvar.map hash_variable)]

/-- A function record with only the hash-relevant fields populated. -/
def plainFn (n : String) (ds : List DecoratorInfo) (bh : String) : FunctionInfo :=
  ⟨"m.py::" ++ n, n, n, [], none, ds, none, false, false, false, false, false, false,
    1, [], [], bh⟩

/-- A module record with the given functions and variables. -/
def plainModule (fs : List FunctionInfo) (vs : List VariableInfo) : ModuleInfo :=
  ⟨"m.py", "m.py", "m", "", none, [], [], fs, vs, 1⟩

theorem C7_sibling_order_insensitive_witness :
    (plainModule [plainFn "f" [] "", plainFn "g" [] ""] []).functions ≠
      (plainModule [plainFn "g" [] "", plainFn "f" [] ""] []).functions
  ∧ hash_module true (plainModule [plainFn "f" [] "", plainFn "g" [] ""] []) =
      hash_module true (plainModule [plainFn "g" [] "", plainFn "f" [] ""] []) :=
  ⟨by decide,
    C7_sibling_order_insensitive true _ _ rfl rfl (List.Perm.refl _) (List.Perm.refl _)
      (List.Perm.swap _ _ _) (List.Perm.refl _)⟩

/-- C8: for a function with two decorators of distinct written forms,
swapping those decorators changes `hash_function`, and changes the enclosing
module's hash. -/
theorem C8_decorator_order_sensitive (incDoc : Bool) (f1 : FunctionInfo)
    (u v w : List DecoratorInfo) (d1 d2 : DecoratorInfo) (m1 : ModuleInfo)
    (a b : List FunctionInfo)
    (hd : f1.decorators = u ++ d1 :: v ++ d2 :: w)
    (hne : d1.qualified_name ≠ d2.qualified_name)
    (hm : m1.functions = a ++ f1 :: b) :
    hash_function incDoc f1 ≠
      hash_function incDoc { f1 with decorators := u ++ d2 :: v ++ d1 :: w }
  ∧ hash_module incDoc m1 ≠
      hash_module incDoc
        { m1 with functions := a ++ { f1 with decorators := u ++ d2 :: v ++ d1 :: w } :: b } := by
  have hf := hash_function_ne_of_dec_swap incDoc f1 u v w d1 d2 hd hne
  refine ⟨hf, ?_⟩
  refine hash_module_ne_of_funcs incDoc rfl rfl rfl rfl rfl ?_
  rw [hm]
  simp only [List.map_append, List.map_cons]
  exact hsort_replace_ne hf (a.map (hash_function incDoc)) (b.map (hash_function incDoc))

theorem C8_decorator_order_sensitive_witness :
    hash_function true (plainFn "f" [⟨"dec1", []⟩, ⟨"dec2", []⟩] "") ≠
      hash_function true (plainFn "f" [⟨"dec2", []⟩, ⟨"dec1", []⟩] "")
  ∧ hash_module true (plainModule [plainFn "f" [⟨"dec1", []⟩, ⟨"dec2", []⟩] ""] []) ≠
      hash_module true (plainModule [plainFn "f" [⟨"dec2", []⟩, ⟨"dec1", []⟩] ""] []) :=
  C8_decorator_order_sensitive true (plainFn "f" [⟨"dec1", []⟩, ⟨"dec2", []⟩] "")
    [] [] [] ⟨"dec1", []⟩ ⟨"dec2", []⟩
    (plainModule [plainFn "f" [⟨"dec1", []⟩, ⟨"dec2", []⟩] ""] []) [] []
    rfl (by decide) rfl

/-- C1 (amended): a change to a descendant that changes its non-empty
component list propagates to the module hash.  In particular, replacing a
top-level function's `body_hash` field by a different value changes the
function's hash and the module's hash. -/
theorem C1_merkle_body_hash (incDoc : Bool) (f1 : FunctionInfo) (b2 : String)
    (m1 : ModuleInfo) (a b : List FunctionInfo)
    (hb : f1.body_hash ≠ b2) (hm : m1.functions = a ++ f1 :: b) :
    hash_function incDoc f1 ≠ hash_function incDoc { f1 with body_hash := b2 }
  ∧ hash_module incDoc m1 ≠
      hash_module incDoc { m1 with functions := a ++ { f1 with body_hash := b2 } :: b } := by
  have hf := hash_function_ne_of_body_hash incDoc f1 b2 hb
  refine ⟨hf, ?_⟩
  refine hash_module_ne_of_funcs incDoc rfl rfl rfl rfl rfl ?_
  rw [hm]
  simp only [List.map_append, List.map_cons]
  exact hsort_replace_ne hf (a.map (hash_function incDoc)) (b.map (hash_function incDoc))

theorem C1_merkle_body_hash_witness :
    hash_function true (plainFn "f" [] "b1") ≠ hash_function true (plainFn "f" [] "b2")
  ∧ hash_module true (plainModule [plainFn "f" [] "b1"] []) ≠
      hash_module true (plainModule [plainFn "f" [] "b2"] []) :=
  C1_merkle_body_hash true (plainFn "f" [] "b1") "b2"
    (plainModule [plainFn "f" [] "b1"] []) [] [] (by decide) rfl

/-! ## `HashCalculator.compare_hashes` (C6)

A Python hash dict (`dict[str, str]`) is an association list observed through
`dget` (first-match lookup) and its key set. -/

/-- Python `d[k]` / `k in d`, as an optional lookup. -/
def dget : List (String × String) → String → Option String
  | [], _ => none
  | (k, v) :: rest, key => if k = key then some v else dget rest key

/-- The key set of a hash dict. -/
def dkeys (d : List (String × String)) : Finset String :=
  (d.map Prod.fst).toFinset

/-- `HashCalculator.compare_hashes`: `(added, removed, modified)`. -/
def compare_hashes (old_hashes new_hashes : List (String × String)) :
    Finset String × Finset String × Finset String :=
  let old_keys := dkeys old_hashes
  let new_keys := dkeys new_hashes
  let added := new_keys \ old_keys
  let removed := old_keys \ new_keys
  let common := old_keys ∩ new_keys
  let modified := common.filter (fun k => dget old_hashes k ≠ dget new_hashes k)
  (added, removed, modified)

/-- The claim's transformation: remove `removed`, add `added` with the new
values, update `modified` with the new values; every other key keeps its old
value. -/
def applyChanges (old_hashes new_hashes : List (String × String))
    (added removed modified : Finset String) (k : String) : Option String :=
  if k ∈ removed then none
  else if k ∈ added ∨ k ∈ modified then dget new_hashes k
  else dget old_hashes k

theorem dget_eq_none_iff (d : List (String × String)) (k : String) :
    dget d k = none ↔ k ∉ dkeys d := by
  induction d with
  | nil => simp [dget, dkeys]
  | cons p rest ih =>
    obtain ⟨k0, v0⟩ := p
    by_cases hk : k0 = k
    · subst hk
      simp [dget, dkeys]
    · simp [dget, dkeys, hk, Ne.symm hk] at ih ⊢
      rw [← ih]

/-- C6: `compare_hashes` returns `added = keys(new) \ keys(old)`,
`removed = keys(old) \ keys(new)`, `modified = { k ∈ both | old[k] ≠ new[k] }`;
the three sets are pairwise disjoint, and applying
(remove `removed`, add `added`, update `modified`) to `old` yields `new`. -/
theorem C6_compare_hashes_spec (old_hashes new_hashes : List (String × String)) :
    (compare_hashes old_hashes new_hashes).1 = dkeys new_hashes \ dkeys old_hashes
  ∧ (compare_hashes old_hashes new_hashes).2.1 = dkeys old_hashes \ dkeys new_hashes
  ∧ (compare_hashes old_hashes new_hashes).2.2 =
      (dkeys old_hashes ∩ dkeys new_hashes).filter
        (fun k => dget old_hashes k ≠ dget new_hashes k)
  ∧ Disjoint (compare_hashes old_hashes new_hashes).1
      (compare_hashes old_hashes new_hashes).2.1
  ∧ Disjoint (compare_hashes old_hashes new_hashes).1
      (compare_hashes old_hashes new_hashes).2.2
  ∧ Disjoint (compare_hashes old_hashes new_hashes).2.1
      (compare_hashes old_hashes new_hashes).2.2
  ∧ ∀ k, applyChanges old_hashes new_hashes
      (compare_hashes old_hashes new_hashes).1
      (compare_hashes old_hashes new_hashes).2.1
      (compare_hashes old_hashes new_hashes).2.2 k = dget new_hashes k := by
  refine ⟨rfl, rfl, rfl, ?_, ?_, ?_, ?_⟩
  · rw [Finset.disjoint_left]
    intro k hk1 hk2
    simp only [compare_hashes, Finset.mem_sdiff] at hk1 hk2
    exact hk1.2 hk2.1
  · rw [Finset.disjoint_left]
    intro k hk1 hk2
    simp only [compare_hashes, Finset.mem_sdiff, Finset.mem_filter,
      Finset.mem_inter] at hk1 hk2
    exact hk1.2 hk2.1.1
  · rw [Finset.disjoint_left]
    intro k hk1 hk2
    simp only [compare_hashes, Finset.mem_sdiff, Finset.mem_filter,
      Finset.mem_inter] at hk1 hk2
    exact hk1.2 hk2.1.2
  · intro k
    by_cases hold : k ∈ dkeys old_hashes <;> by_cases hnew : k ∈ dkeys new_hashes
    · by_cases hmod : dget old_hashes k = dget new_hashes k
      · have : applyChanges old_hashes new_hashes
            (compare_hashes old_hashes new_hashes).1
            (compare_hashes old_hashes new_hashes).2.1
            (compare_hashes old_hashes new_hashes).2.2 k = dget old_hashes k := by
          simp [applyChanges, compare_hashes, hold, hnew, hmod]
        rw [this, hmod]
      · simp [applyChanges, compare_hashes, hold, hnew, hmod]
    · simp only [applyChanges, compare_hashes]
      rw [if_pos (by simp [Finset.mem_sdiff, hold, hnew]), Eq.comm]
      exact (dget_eq_none_iff _ _).mpr hnew
    · simp [applyChanges, compare_hashes, hold, hnew]
    · have h1 : dget old_hashes k = none := (dget_eq_none_iff _ _).mpr hold
      have h2 : dget new_hashes k = none := (dget_eq_none_iff _ _).mpr hnew
      simp [applyChanges, compare_hashes, hold, hnew, h1, h2]

/-! ## tree-sitter syntax nodes

A concrete-syntax-tree node: node type, source text, named fields, children
(in tree-sitter the field children also appear among `children`; concrete
trees below are built that way).  Mutual inductives keep recursion
structural. -/

mutual
inductive PNode : Type where
  | mk (ty : String) (text : String) (fields : PFields) (children : PNodes)
deriving DecidableEq
inductive PFields : Type where
  | fnil : PFields
  | fcons (fname : String) (fnode : PNode) (rest : PFields) : PFields
deriving DecidableEq
inductive PNodes : Type where
  | pnil : PNodes
  | pcons (hd : PNode) (tl : PNodes) : PNodes
deriving DecidableEq
end

def PNode.ty : PNode → String
  | .mk t _ _ _ => t

def PNode.text : PNode → String
  | .mk _ x _ _ => x

def PNode.fields : PNode → PFields
  | .mk _ _ fs _ => fs

def PNode.children : PNode → PNodes
  | .mk _ _ _ cs => cs

def PFields.find : PFields → String → Option PNode
  | .fnil, _ => none
  | .fcons k v rest, f => if k = f then some v else PFields.find rest f

/-- `node.child_by_field_name(f)`. -/
def PNode.childByField (n : PNode) (f : String) : Option PNode :=
  n.fields.find f

def PNodes.get? : PNodes → Nat → Option PNode
  | .pnil, _ => none
  | .pcons c _, 0 => some c
  | .pcons _ cs, Nat.succ i => PNodes.get? cs i

def PNodes.foldl {α : Type} (f : α → PNode → α) : α → PNodes → α
  | a, .pnil => a
  | a, .pcons c cs => PNodes.foldl f (f a c) cs

def pnodesOf : List PNode → PNodes
  | [] => .pnil
  | c :: cs => .pcons c (pnodesOf cs)

def pfieldsOf : List (String × PNode) → PFields
  | [] => .fnil
  | (k, v) :: rest => .fcons k v (pfieldsOf rest)

/-! ## `TreeSitterParser` (`backend/parser/tree_sitter_parser.py`) -/

/-- The apostrophe character. -/
def squote : Char := '\''

/-- The string of three single quotes. -/
def tripleSquote : String := String.mk [squote, squote, squote]

/-- The string of one single quote. -/
def singleSquote : String := String.mk [squote]

/-- Python `s.startswith(p)`, via the character lists. -/
def pyStartsWith (s p : String) : Bool :=
  p.data.isPrefixOf s.data

/-- Python whitespace for `str.strip` (ASCII subset). -/
def pyIsSpace (c : Char) : Bool :=
  c == ' ' || c == '\t' || c == '\n' || c == '\r'

/-- Python `s.strip()`. -/
def pyStrip (s : String) : String :=
  String.mk (((s.data.dropWhile pyIsSpace).reverse.dropWhile pyIsSpace).reverse)

/-- Python `s[k:-k]` (empty when the string is shorter than `2*k`). -/
def cutEnds (s : String) (k : Nat) : String :=
  String.mk ((s.data.drop k).take (s.data.length - 2 * k))

/-- `TreeSitterParser._clean_docstring`. -/
def clean_docstring (docstring : String) : String :=
  if pyStartsWith docstring "\"\"\"" || pyStartsWith docstring tripleSquote then
    pyStrip (cutEnds docstring 3)
  else if pyStartsWith docstring "\"" || pyStartsWith docstring singleSquote then
    pyStrip (cutEnds docstring 1)
  else pyStrip docstring

/-- Loop body of `TreeSitterParser._extract_block_docstring`: an
`expression_statement` whose first child is a string yields the docstring;
`comment`/`newline` children are skipped; anything else stops the scan. -/
def ts_block_docstring_go : PNodes → Option String
  | .pnil => none
  | .pcons child rest =>
    if child.ty = "expression_statement" then
      match child.children.get? 0 with
      | some expr =>
        if expr.ty = "string" then some (clean_docstring expr.text)
        else ts_block_docstring_go rest
      | none => ts_block_docstring_go rest
    else if child.ty = "comment" ∨ child.ty = "newline" then ts_block_docstring_go rest
    else none

/-- `TreeSitterParser._extract_block_docstring`. -/
def ts_extract_block_docstring (block : PNode) : Option String :=
  ts_block_docstring_go block.children

/-- The decision node types of `TreeSitterParser._calculate_complexity`. -/
def tsDecisionTypes : List String :=
  ["if_statement", "elif_clause", "for_statement", "while_statement",
   "except_clause", "with_statement", "assert_statement", "conditional_expression"]

/-- The `boolean_operator` case of `_calculate_complexity`: the operator
token (`node.children[1]`, when present) must read `and` or `or`. -/
def tsBoolOpHit : Option PNode → Nat
  | some op => if op.text = "and" ∨ op.text = "or" then 1 else 0
  | none => 0

mutual
/-- The walker of `TreeSitterParser._calculate_complexity`: contribution of
one node (and, unless it is a nested `function_definition` or
`class_definition`, of its subtree). -/
def tsComplexityWalk : PNode → Nat
  | .mk ty _ _ cs =>
    (if ty ∈ tsDecisionTypes then 1
     else if ty = "boolean_operator" then tsBoolOpHit (cs.get? 1)
     else 0)
    + (if ty ∉ ["function_definition", "class_definition"] then tsComplexityWalkList cs
       else 0)
def tsComplexityWalkList : PNodes → Nat
  | .pnil => 0
  | .pcons c cs => tsComplexityWalk c + tsComplexityWalkList cs
end

/-- `TreeSitterParser._calculate_complexity`. -/
def ts_calculate_complexity (block : PNode) : Nat :=
  1 + tsComplexityWalk block

mutual
/-- The walker of `TreeSitterParser._extract_function_calls`. -/
def tsCallsWalk : PNode → List String
  | .mk ty _ fs cs =>
    (if ty = "call" then
      match fs.find "function" with
      | some f => [f.text]
      | none => []
     else [])
    ++ (if ty ≠ "function_definition" ∧ ty ≠ "class_definition" then tsCallsWalkList cs
        else [])
def tsCallsWalkList : PNodes → List String
  | .pnil => []
  | .pcons c cs => tsCallsWalk c ++ tsCallsWalkList cs
end

/-- `TreeSitterParser._extract_function_calls`. -/
def ts_extract_function_calls (block : PNode) : List String :=
  tsCallsWalk block

mutual
/-- The walker of `TreeSitterParser._extract_local_variables`; the
accumulator carries `(variables, seen_names)`. -/
def tsLocalsWalk : PNode → List VariableInfo × List String → List VariableInfo × List String
  | .mk ty _ fs cs, acc =>
    let acc2 :=
      if ty = "assignment" then
        match fs.find "left" with
        | some left =>
          if left.ty = "identifier" then
            let nm := left.text
            if nm ∈ acc.2 then acc
            else (acc.1 ++ [⟨"", nm, none, (fs.find "right").map PNode.text, "function", false⟩],
                  acc.2 ++ [nm])
          else acc
        | none => acc
      else acc
    if ty ≠ "function_definition" ∧ ty ≠ "class_definition" then tsLocalsWalkList cs acc2
    else acc2
def tsLocalsWalkList : PNodes → List VariableInfo × List String →
    List VariableInfo × List String
  | .pnil, acc => acc
  | .pcons c cs, acc => tsLocalsWalkList cs (tsLocalsWalk c acc)
end

/-- `TreeSitterParser._extract_local_variables`. -/
def ts_extract_local_variables (block : PNode) : List VariableInfo :=
  (tsLocalsWalk block ([], [])).1

mutual
/-- The walker of `TreeSitterParser._has_yield` (does not descend into
nested `function_definition`s; it does descend into classes). -/
def tsYieldWalk : PNode → Bool
  | .mk ty _ _ cs =>
    if ty = "yield" ∨ ty = "yield_from" then true
    else if ty ≠ "function_definition" then tsYieldWalkList cs
    else false
def tsYieldWalkList : PNodes → Bool
  | .pnil => false
  | .pcons c cs => tsYieldWalk c || tsYieldWalkList cs
end

/-- `TreeSitterParser._has_yield`. -/
def ts_has_yield (block : PNode) : Bool :=
  tsYieldWalk block

/-- One child branch of `TreeSitterParser._parse_parameters` (the source
appends inside each branch; consolidated here into an optional result). -/
def ts_parse_single_param (child : PNode) : Option ParameterInfo :=
  if child.ty = "identifier" then some ⟨child.text, none, none, false, false⟩
  else if child.ty = "typed_parameter" then
    match (match child.childByField "name" with
           | some n => some n
           | none => child.children.get? 0) with
    | some n => some ⟨n.text, (child.childByField "type").map PNode.text, none, false, false⟩
    | none => none
  else if child.ty = "default_parameter" then
    match child.childByField "name" with
    | some n => some ⟨n.text, none, (child.childByField "value").map PNode.text, false, false⟩
    | none => none
  else if child.ty = "typed_default_parameter" then
    match child.childByField "name" with
    | some n => some ⟨n.text, (child.childByField "type").map PNode.text,
        (child.childByField "value").map PNode.text, false, false⟩
    | none => none
  else if child.ty = "list_splat_pattern" then
    match child.children.get? 0 with
    | some n => some ⟨n.text, none, none, true, false⟩
    | none => none
  else if child.ty = "dictionary_splat_pattern" then
    match child.children.get? 0 with
    | some n => some ⟨n.text, none, none, false, true⟩
    | none => none
  else none

def PNodes.toList : PNodes → List PNode
  | .pnil => []
  | .pcons c cs => c :: PNodes.toList cs

/-- `TreeSitterParser._parse_parameters`. -/
def ts_parse_parameters (node : PNode) : List ParameterInfo :=
  node.children.toList.filterMap ts_parse_single_param

/-- One iteration of the child loop in `TreeSitterParser._parse_function`. -/
def ts_parse_function_step (parent_qualified_name : String) (acc : FunctionInfo)
    (child : PNode) : FunctionInfo :=
  if child.ty = "identifier" then
    let nm := child.text
    { acc with
      name := nm
      qualified_name :=
        if parent_qualified_name ≠ "" then parent_qualified_name ++ "." ++ nm else nm }
  else if child.ty = "parameters" then { acc with parameters := ts_parse_parameters child }
  else if child.ty = "type" then { acc with return_type := some child.text }
  else if child.ty = "block" then
    { acc with
      docstring := ts_extract_block_docstring child
      complexity := ts_calculate_complexity child
      calls := ts_extract_function_calls child
      «variables» := ts_extract_local_variables child
      is_generator := ts_has_yield child }
  else acc

/-- `TreeSitterParser._parse_function` (fields the Python dataclass defaults
initialize are set in the initial record; the `decorators or []` default is
the caller's empty list). -/
def ts_parse_function (node : PNode) (parent_qualified_name : String)
    (is_method : Bool) (decorators : List DecoratorInfo) : FunctionInfo :=
  let init : FunctionInfo :=
    ⟨"", "", "", [], none, decorators, none, false, false, is_method, false, false, false,
      1, [], [], ""⟩
  let info := node.children.foldl (ts_parse_function_step parent_qualified_name) init
  let info :=
    if (node.children.get? 0).map PNode.ty = some "async" then { info with is_async := true }
    else info
  decorators.foldl
    (fun acc d =>
      if d.name = "classmethod" then { acc with is_classmethod := true }
      else if d.name = "staticmethod" then { acc with is_staticmethod := true }
      else if d.name = "property" then { acc with is_property := true }
      else acc)
    info

/-! ## Cyclomatic complexity (C4) -/

/-- The decision node types of `ProjectParser._calculate_complexity` — note:
no `assert_statement`, and the short-circuit operators appear as the token
node types `and` / `or`. -/
def ppDecisionTypes : List String :=
  ["if_statement", "elif_clause", "for_statement", "while_statement",
   "except_clause", "with_statement", "and", "or", "conditional_expression"]

mutual
/-- The walker of `ProjectParser._calculate_complexity`: it recurses into
every child, including nested `function_definition`/`class_definition`
bodies. -/
def ppComplexityWalk : PNode → Nat
  | .mk ty _ _ cs => (if ty ∈ ppDecisionTypes then 1 else 0) + ppComplexityWalkList cs
def ppComplexityWalkList : PNodes → Nat
  | .pnil => 0
  | .pcons c cs => ppComplexityWalk c + ppComplexityWalkList cs
end

/-- `ProjectParser._calculate_complexity`. -/
def pp_calculate_complexity (block : PNode) : Nat :=
  1 + ppComplexityWalk block

/-- The constructs enumerated by claim C4, in the claim's order: `if`,
else-if, `for`, `while`, exception handler, `with`, conditional expression,
`assert` — plus short-circuit boolean operators, recognized below. -/
def claimDecisionTypes : List String :=
  ["if_statement", "elif_clause", "for_statement", "while_statement",
   "except_clause", "with_statement", "conditional_expression", "assert_statement"]

/-- Whether an optional operator token reads `and` or `or`. -/
def claimBoolOpText : Option PNode → Bool
  | some op => op.text = "and" || op.text = "or"
  | none => false

/-- A short-circuit boolean operator node (`and` / `or`). -/
def claimShortCircuitOp (n : PNode) : Bool :=
  n.ty = "boolean_operator" && claimBoolOpText (n.children.get? 1)

mutual
/-- The number of decision constructs claim C4 counts, not traversing nested
function/class bodies. -/
def claimCount : PNode → Nat
  | .mk ty tx fs cs =>
    (if ty ∈ claimDecisionTypes ∨ claimShortCircuitOp (.mk ty tx fs cs) then 1 else 0)
    + (if ty = "function_definition" ∨ ty = "class_definition" then 0 else claimCountList cs)
def claimCountList : PNodes → Nat
  | .pnil => 0
  | .pcons c cs => claimCount c + claimCountList cs
end

mutual
theorem tsComplexityWalk_eq_claimCount : ∀ n : PNode, tsComplexityWalk n = claimCount n
  | .mk ty tx fs cs => by
    have hrec := tsComplexityWalkList_eq_claimCountList cs
    rw [tsComplexityWalk, claimCount]
    congr 1
    · by_cases h1 : ty ∈ tsDecisionTypes
      · have h2 : ty ∈ claimDecisionTypes ∨ claimShortCircuitOp (.mk ty tx fs cs) := by
          left
          simp only [tsDecisionTypes, List.mem_cons, List.not_mem_nil, or_false] at h1
          simp only [claimDecisionTypes, List.mem_cons, List.not_mem_nil, or_false]
          tauto
        rw [if_pos h1, if_pos h2]
      · have h2 : ty ∉ claimDecisionTypes := by
          simp only [tsDecisionTypes, List.mem_cons, List.not_mem_nil, or_false] at h1
          simp only [claimDecisionTypes, List.mem_cons, List.not_mem_nil, or_false]
          tauto
        rw [if_neg h1]
        by_cases h3 : ty = "boolean_operator"
        · rw [if_pos h3]
          rcases hop : cs.get? 1 with _ | op
          · rw [if_neg]
            · simp [tsBoolOpHit]
            · simp [claimShortCircuitOp, claimBoolOpText, PNode.ty, PNode.children,
                hop, h2]
          · by_cases hand : op.text = "and" ∨ op.text = "or"
            · rw [if_pos]
              · simp [tsBoolOpHit, hand]
              · right
                simp only [claimShortCircuitOp, claimBoolOpText, PNode.ty,
                  PNode.children, hop, h3, Bool.and_eq_true, decide_eq_true_eq,
                  Bool.or_eq_true]
                exact ⟨trivial, hand⟩
            · rw [if_neg]
              · simp [tsBoolOpHit, hand]
              · intro hcon
                rcases hcon with hcon | hcon
                · exact h2 hcon
                · simp only [claimShortCircuitOp, claimBoolOpText, PNode.ty,
                    PNode.children, hop, Bool.and_eq_true, decide_eq_true_eq,
                    Bool.or_eq_true] at hcon
                  exact hand hcon.2
        · rw [if_neg h3, if_neg]
          intro hcon
          rcases hcon with hcon | hcon
          · exact h2 hcon
          · simp only [claimShortCircuitOp, PNode.ty, Bool.and_eq_true,
              decide_eq_true_eq] at hcon
            exact h3 hcon.1
    · by_cases h4 : ty = "function_definition" ∨ ty = "class_definition"
      · rw [if_pos h4, if_neg]
        simp only [List.mem_cons, List.not_mem_nil, or_false, not_not]
        exact h4
      · rw [if_neg h4, if_pos, hrec]
        simp only [List.mem_cons, List.not_mem_nil, or_false]
        exact h4
theorem tsComplexityWalkList_eq_claimCountList : ∀ cs : PNodes,
    tsComplexityWalkList cs = claimCountList cs
  | .pnil => rfl
  | .pcons c cs => by
    rw [tsComplexityWalkList, claimCountList, tsComplexityWalk_eq_claimCount c,
      tsComplexityWalkList_eq_claimCountList cs]
end

/-- C4 (amended): for every function body parsed by `TreeSitterParser`, the
computed cyclomatic complexity equals 1 plus the number of `if`, else-if,
`for`, `while`, exception-handler, `with`, conditional-expression,
short-circuit boolean operator and `assert` constructs, with nested
function/class bodies not traversed.  (`ProjectParser._calculate_complexity`
does not satisfy the claim: it counts no `assert` and traverses nested
bodies — see the counterexample.) -/
theorem C4_ts_complexity_eq_claim (block : PNode) :
    ts_calculate_complexity block = 1 + claimCount block :=
  congrArg (1 + ·) (tsComplexityWalk_eq_claimCount block)

def tokNode (t : String) : PNode := .mk t t .fnil .pnil

def idNode (n : String) : PNode := .mk "identifier" n .fnil .pnil

/-- The tree-sitter tree of the statement `assert x`. -/
def assertStmtNode : PNode :=
  .mk "assert_statement" "assert x" .fnil (pnodesOf [tokNode "assert", idNode "x"])

/-- A function body consisting of `assert x`. -/
def assertBlock : PNode :=
  .mk "block" "assert x" .fnil (pnodesOf [assertStmtNode])

def passNode : PNode := .mk "pass_statement" "pass" .fnil (pnodesOf [tokNode "pass"])

def innerIfBody : PNode := .mk "block" "pass" .fnil (pnodesOf [passNode])

/-- The tree of `if x: pass`. -/
def innerIfStmt : PNode :=
  .mk "if_statement" "if x: pass"
    (pfieldsOf [("condition", idNode "x"), ("consequence", innerIfBody)])
    (pnodesOf [tokNode "if", idNode "x", tokNode ":", innerIfBody])

def innerFnBody : PNode := .mk "block" "if x: pass" .fnil (pnodesOf [innerIfStmt])

def emptyParams : PNode :=
  .mk "parameters" "()" .fnil (pnodesOf [tokNode "(", tokNode ")"])

/-- The tree of the nested definition `def g(): if x: pass`. -/
def nestedFnDef : PNode :=
  .mk "function_definition" "def g(): if x: pass"
    (pfieldsOf [("name", idNode "g"), ("parameters", emptyParams), ("body", innerFnBody)])
    (pnodesOf [tokNode "def", idNode "g", emptyParams, tokNode ":", innerFnBody])

/-- A function body whose only statement is a nested `def` containing an
`if`. -/
def nestedDefBlock : PNode :=
  .mk "block" "def g(): if x: pass" .fnil (pnodesOf [nestedFnDef])

/-- C4 is false as stated for `ProjectParser._calculate_complexity`: an
`assert` body must give complexity 2 (and does under `TreeSitterParser`),
but `ProjectParser` gives 1; a body whose only construct is an `if` inside a
nested `def` must give 1, but `ProjectParser` gives 2. -/
theorem C4_counterexample :
    pp_calculate_complexity assertBlock = 1
  ∧ ts_calculate_complexity assertBlock = 2
  ∧ 1 + claimCount assertBlock = 2
  ∧ pp_calculate_complexity nestedDefBlock = 2
  ∧ ts_calculate_complexity nestedDefBlock = 1
  ∧ 1 + claimCount nestedDefBlock = 1 := by decide

/-- The tree of `return <v>`. -/
def returnStmtNode (v : String) : PNode :=
  .mk "return_statement" ("return " ++ v) .fnil
    (pnodesOf [tokNode "return", .mk "integer" v .fnil .pnil])

/-- A function body consisting of `return <v>`. -/
def returnBlock (v : String) : PNode :=
  .mk "block" ("return " ++ v) .fnil (pnodesOf [returnStmtNode v])

/-- The tree of `def foo(): return <v>`. -/
def fooDefNode (v : String) : PNode :=
  .mk "function_definition" ("def foo(): return " ++ v)
    (pfieldsOf [("name", idNode "foo"), ("parameters", emptyParams),
      ("body", returnBlock v)])
    (pnodesOf [tokNode "def", idNode "foo", emptyParams, tokNode ":", returnBlock v])

/-- C1 is false as stated.  (i) Two modules whose only difference is the
content of one variable record (its type-hint text moved into the
initial-value field) have equal `hash_module` values: empty components are
dropped before joining, so both records contribute the components
`["v", "a"]`.  (ii) A change confined to a function's body does not change
the function's hash: the two parses of `def foo(): return 1` and
`def foo(): return 2` produce identical `FunctionInfo` records with
`body_hash = ""` — no parser in the repository ever populates `body_hash`,
so `hash_function` never sees a body component. -/
theorem C1_counterexample :
    (plainModule [] [⟨"m.py::v", "v", some "a", none, "module", false⟩] ≠
       plainModule [] [⟨"m.py::v", "v", none, some "a", "module", false⟩]
     ∧ hash_module true (plainModule [] [⟨"m.py::v", "v", some "a", none, "module", false⟩]) =
         hash_module true (plainModule [] [⟨"m.py::v", "v", none, some "a", "module", false⟩]))
  ∧ (fooDefNode "1" ≠ fooDefNode "2"
     ∧ ts_parse_function (fooDefNode "1") "test" false [] =
         ts_parse_function (fooDefNode "2") "test" false []
     ∧ (ts_parse_function (fooDefNode "1") "test" false []).body_hash = ""
     ∧ hash_function true (ts_parse_function (fooDefNode "1") "test" false []) =
         hash_function true (ts_parse_function (fooDefNode "2") "test" false [])) := by
  decide

/-! ## Dotted-name splitting and joining

Python `s.split(".")` and `".".join(parts)`, embedded at the character level
(the Mathlib `List.splitOn` has exactly Python's single-separator split
semantics, empty pieces included). -/

/-- Python `s.split(".")`. -/
def pySplitDot (s : String) : List String :=
  (s.data.splitOn '.').map String.mk

/-- Python `".".join(parts)`. -/
def pyJoinDot (parts : List String) : String :=
  String.mk (List.intercalate ['.'] (parts.map String.data))

/-- Python `"." in s`. -/
def pyContainsDot (s : String) : Bool :=
  s.data.contains '.'

theorem data_map_mk (ls : List (List Char)) : (ls.map String.mk).map String.data = ls := by
  rw [List.map_map]
  exact List.map_id'' (fun _ => rfl) ls

theorem pyJoinDot_pySplitDot (s : String) : pyJoinDot (pySplitDot s) = s := by
  unfold pyJoinDot pySplitDot
  rw [data_map_mk, List.intercalate_splitOn]

theorem pySplitDot_ne_nil (s : String) : pySplitDot s ≠ [] := by
  unfold pySplitDot
  intro h
  exact List.splitOnP_ne_nil _ _ (List.map_eq_nil_iff.mp h)

theorem length_intercalate_dot : ∀ ls : List (List Char), ls ≠ [] →
    (List.intercalate ['.'] ls).length = (ls.map List.length).sum + ls.length - 1
  | [], h => absurd rfl h
  | [l], _ => by simp [List.intercalate]
  | l₁ :: l₂ :: rest, _ => by
    have ih := length_intercalate_dot (l₂ :: rest) (by simp)
    rw [List.intercalate] at ih ⊢
    rw [List.intersperse_cons₂]
    simp only [List.flatten_cons, List.length_append, List.map_cons, List.sum_cons,
      List.length_cons, List.length_nil, List.length_map] at ih ⊢
    omega

/-- The summed segment length of a prefix is at most that of the whole. -/
theorem sum_len_take_le (ls : List (List Char)) (i : Nat) :
    ((ls.take i).map List.length).sum ≤ (ls.map List.length).sum := by
  conv_rhs => rw [← List.take_append_drop i ls]
  rw [List.map_append, List.sum_append]
  exact Nat.le_add_right _ _

/-! ## `ChangeDetector.get_affected_by_change` (C10) -/

/-- `ChangeDetector.get_affected_by_change`: the set of all parent dotted
paths `".".join(parts[:i])` for `i in range(1, len(parts))`. -/
def get_affected_by_change (changed_qualified_name : String) : Finset String :=
  let parts := pySplitDot changed_qualified_name
  ((List.range' 1 (parts.length - 1)).map (fun i => pyJoinDot (parts.take i))).toFinset

/-- The claim's set: for `q` with segments `p1 ... pn`, the strict dotted
prefixes `p1`, `p1.p2`, …, `p1.….p(n-1)`. -/
def strictDottedPrefixes (q : String) : Finset String :=
  ((List.range ((pySplitDot q).length - 1)).map
    (fun j => pyJoinDot ((pySplitDot q).take (j + 1)))).toFinset

theorem charlen_pyJoinDot_take (q : String) (i : Nat) (hi : 1 ≤ i)
    (hin : i ≤ (pySplitDot q).length) :
    (pyJoinDot ((pySplitDot q).take i)).data.length =
      (((q.data.splitOn '.').take i).map List.length).sum + i - 1 := by
  unfold pyJoinDot pySplitDot
  rw [← List.map_take, data_map_mk]
  have hne : (q.data.splitOn '.').take i ≠ [] := by
    intro h
    have := congrArg List.length h
    rw [List.length_take] at this
    simp only [List.length_nil] at this
    unfold pySplitDot at hin
    rw [List.length_map] at hin
    omega
  rw [show (String.mk (List.intercalate ['.']
      ((q.data.splitOn '.').take i))).data = List.intercalate ['.']
      ((q.data.splitOn '.').take i) from rfl]
  rw [length_intercalate_dot _ hne, List.length_take]
  unfold pySplitDot at hin
  rw [List.length_map] at hin
  rw [Nat.min_eq_left hin]

/-- C10: `get_affected_by_change q` is exactly the set of strict dotted
prefixes of `q`; `q` itself is never in the result; a single-segment name
yields the empty set. -/
theorem C10_affected_scopes (q : String) :
    get_affected_by_change q = strictDottedPrefixes q
  ∧ q ∉ get_affected_by_change q
  ∧ ((pySplitDot q).length = 1 → get_affected_by_change q = ∅) := by
  refine ⟨?_, ?_, ?_⟩
  · simp only [get_affected_by_change, strictDottedPrefixes]
    rw [List.range'_eq_map_range, List.map_map]
    congr 1
    refine List.map_congr_left fun j _ => ?_
    simp [Nat.add_comm]
  · intro hmem
    simp only [get_affected_by_change] at hmem
    rw [List.mem_toFinset] at hmem
    rcases List.mem_map.mp hmem with ⟨i, hi, hq⟩
    rw [List.mem_range'] at hi
    rcases hi with ⟨k, hk, hik⟩
    have hi1 : 1 ≤ i := by omega
    have hin : i < (pySplitDot q).length := by omega
    have hlen := charlen_pyJoinDot_take q i hi1 (Nat.le_of_lt hin)
    rw [hq] at hlen
    have hq2 : List.intercalate ['.'] (q.data.splitOn '.') = q.data := by
      rw [List.intercalate_splitOn]
    have hfull : q.data.length = ((q.data.splitOn '.').map List.length).sum +
        (q.data.splitOn '.').length - 1 := by
      conv_lhs => rw [← hq2]
      exact length_intercalate_dot _ (List.splitOnP_ne_nil _ _)
    have hsum := sum_len_take_le (q.data.splitOn '.') i
    have hn : (pySplitDot q).length = (q.data.splitOn '.').length := by
      unfold pySplitDot
      rw [List.length_map]
    have hnz : (q.data.splitOn '.').length ≥ 1 :=
      Nat.one_le_iff_ne_zero.mpr (List.length_eq_zero.not.mpr (List.splitOnP_ne_nil _ _) ∘ fun h => h)
    omega
  · intro h1
    simp only [get_affected_by_change, h1]
    rfl

theorem C10_affected_scopes_witness :
    get_affected_by_change "a.b.c" = strictDottedPrefixes "a.b.c"
  ∧ "a.b.c" ∉ get_affected_by_change "a.b.c"
  ∧ ((pySplitDot "a.b.c").length = 1 → get_affected_by_change "a.b.c" = ∅) :=
  C10_affected_scopes "a.b.c"

/-! ## Resolver state (`backend/parser/project_parser.py`)

The parser's dicts are association lists: `dput` prepends (a dict overwrite,
as observed through `dlookup`, which returns the newest binding). -/

def dlookup {β : Type} : List (String × β) → String → Option β
  | [], _ => none
  | (k, v) :: rest, key => if k = key then some v else dlookup rest key

def dput {β : Type} (d : List (String × β)) (k : String) (v : β) : List (String × β) :=
  (k, v) :: d

/-- `SymbolEntry` (the symbol-table record). -/
structure SymbolEntry where
  id : String
  name : String
  kind : String
  file_path : String
  qualified_name : String
  parent_id : Option String
deriving DecidableEq

/-- `ImportEntry` (per-file import alias record). -/
structure ImportEntry where
  «alias» : String
  qualified_name : String
  target_id : String
  imported_names : List String
deriving DecidableEq

inductive RelType : Type where
  | contains | imports | calls | instantiates | inherits | decorates | defines
deriving DecidableEq

/-- A relationship property value (string, boolean, string list or count). -/
inductive PropVal : Type where
  | s (v : String)
  | b (v : Bool)
  | sl (v : List String)
  | n (v : Nat)
deriving DecidableEq

/-- `Relationship`. -/
structure Relationship where
  source_id : String
  target_id : String
  relationship_type : RelType
  properties : List (String × PropVal)
deriving DecidableEq

/-! ## Relative-import resolution (C5) -/

/-- `ProjectParser._resolve_relative_import`. -/
def resolve_relative_import (current_package module_name : String)
    (relative_level : Nat) : String :=
  if current_package = "" then module_name
  else
    let parts := pySplitDot current_package
    if relative_level > parts.length then module_name
    else
      let base := pyJoinDot (parts.take (parts.length - relative_level + 1))
      if module_name ≠ "" then base ++ "." ++ module_name else base

/-- `ProjectParser._resolve_imports`, for one `ImportInfo`: the IMPORTS
relationships emitted (module edge first, then symbol edges) and the
updated per-file alias table. -/
def resolve_one_import (qualified_to_id : List (String × String))
    (fimports : List (String × ImportEntry)) (file_id : String) (imp : ImportInfo) :
    List Relationship × List (String × ImportEntry) :=
  let target_module := if imp.resolved_module ≠ "" then imp.resolved_module
    else imp.module_name
  match dlookup qualified_to_id target_module with
  | none => ([], fimports)
  | some target_id =>
    let rel1 : Relationship :=
      ⟨file_id, target_id, .imports,
        [("imported_names", .sl imp.imported_names), ("is_relative", .b imp.is_relative)]⟩
    let fimports2 := fimports.map (fun p =>
      if pyStartsWith p.2.qualified_name target_module then
        (p.1, { p.2 with target_id := target_id })
      else p)
    let symRels := imp.imported_names.filterMap (fun name =>
      if name = "*" then none
      else
        match dlookup qualified_to_id (target_module ++ "." ++ name) with
        | some symbol_id =>
          some ⟨file_id, symbol_id, RelType.imports, [("symbol_name", .s name)]⟩
        | none => none)
    (rel1 :: symRels, fimports2)

/-- `ProjectParser._resolve_imports` over a module's import list. -/
def resolve_imports (qualified_to_id : List (String × String))
    (fimports : List (String × ImportEntry)) (m : ModuleInfo) (file_id : String) :
    List Relationship × List (String × ImportEntry) :=
  m.imports.foldl
    (fun acc imp =>
      let out := resolve_one_import qualified_to_id acc.2 file_id imp
      (acc.1 ++ out.1, out.2))
    ([], fimports)

/-- The module of the spec's relative-import scenario: `a/b/m.ext`
containing `from .. import c`. -/
def relImpModule : ModuleInfo :=
  ⟨"a/b/m.py", "a/b/m.py", "m", "a.b", none,
    [⟨"a/b/m.py::import::a", "", ["c"], [], true, 2,
      resolve_relative_import "a.b" "" 2⟩],
    [], [], [], 1⟩

/-- C5: for a from-import with `level ≥ 1` dots in a module whose package
has `k ≥ level` dotted segments, the resolved absolute name is the package
truncated by `level - 1` trailing segments with the written module name (if
any) appended; `from .. import c` in `a/b/m` resolves to `a` and pass 3
emits the IMPORTS edge `a.b.m → a`. -/
theorem C5_relative_import_resolution (current_package module_name : String)
    (level : Nat) (hpkg : current_package ≠ "") (h1 : 1 ≤ level)
    (h2 : level ≤ (pySplitDot current_package).length) :
    (resolve_relative_import current_package module_name level =
      (let parts := pySplitDot current_package
       let base := pyJoinDot (parts.take (parts.length - (level - 1)))
       if module_name ≠ "" then base ++ "." ++ module_name else base))
  ∧ resolve_relative_import "a.b" "" 2 = "a"
  ∧ (resolve_imports [("a.b.m", "a/b/m.py"), ("a.b", "a/b"), ("a", "a")] []
      relImpModule "a/b/m.py").1 =
      [⟨"a/b/m.py", "a", RelType.imports,
        [("imported_names", PropVal.sl ["c"]), ("is_relative", PropVal.b true)]⟩] := by
  refine ⟨?_, by decide, by decide⟩
  simp only [resolve_relative_import, if_neg hpkg]
  rw [if_neg (by omega)]
  have harith : (pySplitDot current_package).length - level + 1 =
      (pySplitDot current_package).length - (level - 1) := by omega
  simp only [harith]

theorem C5_relative_import_resolution_witness :
    (resolve_relative_import "a.b" "c" 2 =
      (let parts := pySplitDot "a.b"
       let base := pyJoinDot (parts.take (parts.length - (2 - 1)))
       if "c" ≠ "" then base ++ "." ++ "c" else base))
  ∧ resolve_relative_import "a.b" "" 2 = "a"
  ∧ (resolve_imports [("a.b.m", "a/b/m.py"), ("a.b", "a/b"), ("a", "a")] []
      relImpModule "a/b/m.py").1 =
      [⟨"a/b/m.py", "a", RelType.imports,
        [("imported_names", PropVal.sl ["c"]), ("is_relative", PropVal.b true)]⟩] :=
  C5_relative_import_resolution "a.b" "c" 2 (by decide) (by decide) (by decide)

/-! ## Pass 2 failure semantics (C9) -/

/-- The pass-2 products the claim talks about. -/
structure Pass2State where
  modules : List ModuleInfo
  errors : List String
deriving DecidableEq

/-- `ProjectParser._pass2_local_ast`: each file's parse runs inside
`try/except`; an exception appends `f"{file_path}: {e}"` to the error list
and the loop continues with the next file.  The per-file body
(`_parse_file`, which appends one parsed module on success) is the `parse`
parameter; `Except.error` is a raised exception. -/
def pass2_local_ast (parse : String → Except String ModuleInfo) :
    Pass2State → List String → Pass2State
  | st, [] => st
  | st, f :: files =>
    match parse f with
    | .ok m => pass2_local_ast parse { st with modules := st.modules ++ [m] } files
    | .error e =>
      pass2_local_ast parse { st with errors := st.errors ++ [f ++ ": " ++ e] } files

/-- C9: a file whose parse raises is skipped — exactly one error string
naming the file is appended, every other file is still processed, and the
pass returns its products as data (it is a total function; no exception
propagates). -/
theorem C9_parse_failure_semantics (parse : String → Except String ModuleInfo)
    (st : Pass2State) (files : List String) :
    (pass2_local_ast parse st files).modules =
      st.modules ++ files.filterMap (fun f => (parse f).toOption)
  ∧ (pass2_local_ast parse st files).errors =
      st.errors ++ files.filterMap (fun f =>
        match parse f with
        | .ok _ => none
        | .error e => some (f ++ ": " ++ e)) := by
  induction files generalizing st with
  | nil => simp [pass2_local_ast]
  | cons f files ih =>
    cases hp : parse f with
    | ok m =>
      simp [pass2_local_ast, hp, ih, Except.toOption]
    | error e =>
      simp [pass2_local_ast, hp, ih, Except.toOption]

/-! ## Pass-3 call resolution (C2) -/

/-- Python `s.rsplit(".", 1)[0]`. -/
def pyRsplitHead (s : String) : String :=
  let ps := pySplitDot s
  if ps.length ≤ 1 then s else pyJoinDot ps.dropLast

/-- `dict.get(k)` followed by Python truthiness (`if target_id:`): `None`
and `""` both fail. -/
def truthyLookup (d : List (String × String)) (k : String) : Option String :=
  match dlookup d k with
  | some v => if v ≠ "" then some v else none
  | none => none

/-- `ProjectParser._resolve_symbol`: the resolution order of §4.3 —
dotted names through the alias table or the self/cls receiver, then class
scope, module scope, imports, and finally the qualified-name index. -/
def resolve_symbol (symbols : List (String × SymbolEntry))
    (qualified_to_id : List (String × String)) (name file_id : String)
    (imports : List (String × ImportEntry)) (parent_class : Option ClassInfo) :
    Option String :=
  let dotted : Option String :=
    if pyContainsDot name then
      let parts := pySplitDot name
      let first_part := parts.headI
      let viaAlias : Option String :=
        match dlookup imports first_part with
        | some import_entry =>
          let rest := pyJoinDot parts.tail
          let full_qualified :=
            if import_entry.imported_names ≠ [] then
              pyRsplitHead import_entry.qualified_name ++ "." ++ rest
            else import_entry.qualified_name ++ "." ++ rest
          truthyLookup qualified_to_id full_qualified
        | none => none
      match viaAlias with
      | some t => some t
      | none =>
        if first_part = "self" ∨ first_part = "cls" then
          match parent_class, parts.get? 1 with
          | some pc, some method_name =>
            let target_id := file_id ++ "::" ++ pc.name ++ "::" ++ method_name
            if (dlookup symbols target_id).isSome then some target_id else none
          | _, _ => none
        else none
    else none
  match dotted with
  | some t => some t
  | none =>
    let viaClass : Option String :=
      match parent_class with
      | some pc =>
        let method_id := file_id ++ "::" ++ pc.name ++ "::" ++ name
        if (dlookup symbols method_id).isSome then some method_id else none
      | none => none
    match viaClass with
    | some t => some t
    | none =>
      let func_id := file_id ++ "::" ++ name
      if (dlookup symbols func_id).isSome then some func_id
      else
        let viaImport : Option String :=
          match dlookup imports name with
          | some import_entry =>
            match truthyLookup qualified_to_id import_entry.qualified_name with
            | some t => some t
            | none =>
              if import_entry.target_id ≠ "" then
                let symbol_id := import_entry.target_id ++ "::" ++ name
                if (dlookup symbols symbol_id).isSome then some symbol_id else none
              else none
          | none => none
        match viaImport with
        | some t => some t
        | none => dlookup qualified_to_id name

/-- `ProjectParser._resolve_function_calls`: the relationships appended for
one function, in call order — only CALLS edges, each carrying `call_name`. -/
def resolve_function_calls (symbols : List (String × SymbolEntry))
    (qualified_to_id : List (String × String)) (func : FunctionInfo)
    (file_id : String) (imports : List (String × ImportEntry))
    (parent_class : Option ClassInfo) : List Relationship :=
  func.calls.filterMap (fun call_name =>
    (resolve_symbol symbols qualified_to_id call_name file_id imports parent_class).map
      (fun target_id =>
        ⟨func.id, target_id, RelType.calls, [("call_name", PropVal.s call_name)]⟩))

/-- `ProjectParser._resolve_calls`: module-level functions with no class
context, then every class's methods with that class as context. -/
def resolve_calls (symbols : List (String × SymbolEntry))
    (qualified_to_id : List (String × String)) (imports : List (String × ImportEntry))
    (m : ModuleInfo) (file_id : String) : List Relationship :=
  ((m.functions.map
      (fun f => resolve_function_calls symbols qualified_to_id f file_id imports none)).flatten)
  ++ ((m.classes.map (fun cls =>
      (cls.methods.map (fun meth =>
        resolve_function_calls symbols qualified_to_id meth file_id imports
          (some cls))).flatten)).flatten)

theorem resolve_function_calls_only_calls (symbols : List (String × SymbolEntry))
    (qualified_to_id : List (String × String)) (func : FunctionInfo)
    (file_id : String) (imports : List (String × ImportEntry))
    (parent_class : Option ClassInfo) (r : Relationship)
    (hr : r ∈ resolve_function_calls symbols qualified_to_id func file_id imports
      parent_class) :
    r.relationship_type = RelType.calls := by
  rcases List.mem_filterMap.mp hr with ⟨cn, _, hcn⟩
  rcases Option.map_eq_some'.mp hcn with ⟨t, _, rfl⟩
  rfl

/-- C2 (amended): every call name whose resolution succeeds yields a CALLS
edge with property `call_name`; but pass 3 emits only CALLS edges — no
INSTANTIATES edge is ever emitted by call resolution, whatever the resolved
target is. -/
theorem C2_call_edges (symbols : List (String × SymbolEntry))
    (qualified_to_id : List (String × String)) (imports : List (String × ImportEntry))
    (func : FunctionInfo) (file_id : String) (parent_class : Option ClassInfo) :
    (∀ call_name ∈ func.calls, ∀ t,
      resolve_symbol symbols qualified_to_id call_name file_id imports parent_class =
        some t →
      (⟨func.id, t, RelType.calls, [("call_name", PropVal.s call_name)]⟩ : Relationship) ∈
        resolve_function_calls symbols qualified_to_id func file_id imports parent_class)
  ∧ (∀ r ∈ resolve_function_calls symbols qualified_to_id func file_id imports
      parent_class, r.relationship_type = RelType.calls)
  ∧ (∀ (m : ModuleInfo) (r : Relationship),
      r ∈ resolve_calls symbols qualified_to_id imports m file_id →
      r.relationship_type = RelType.calls) := by
  refine ⟨?_, ?_, ?_⟩
  · intro call_name hcn t ht
    refine List.mem_filterMap.mpr ⟨call_name, hcn, ?_⟩
    rw [ht]
    rfl
  · intro r hr
    exact resolve_function_calls_only_calls _ _ _ _ _ _ r hr
  · intro m r hr
    rcases List.mem_append.mp hr with h | h
    · rcases List.mem_flatten.mp h with ⟨l, hl, hrl⟩
      rcases List.mem_map.mp hl with ⟨f, _, rfl⟩
      exact resolve_function_calls_only_calls _ _ _ _ _ _ r hrl
    · rcases List.mem_flatten.mp h with ⟨l, hl, hrl⟩
      rcases List.mem_map.mp hl with ⟨cls, _, rfl⟩
      rcases List.mem_flatten.mp hrl with ⟨l2, hl2, hrl2⟩
      rcases List.mem_map.mp hl2 with ⟨meth, _, rfl⟩
      exact resolve_function_calls_only_calls _ _ _ _ _ _ r hrl2

/-- A module-level function whose body calls `K()`. -/
def fnCallingK : FunctionInfo :=
  ⟨"m.py::f", "f", "m.f", [], none, [], none, false, false, false, false, false, false,
    1, [], ["K"], ""⟩

/-- A symbol table whose only entry is the class `K` of module `m.py`. -/
def symsWithClassK : List (String × SymbolEntry) :=
  [("m.py::K", ⟨"m.py::K", "K", "class", "m.py", "m.K", some "m.py"⟩)]

theorem C2_call_edges_witness :
    "K" ∈ fnCallingK.calls
  ∧ (⟨"m.py::f", "m.py::K", RelType.calls, [("call_name", PropVal.s "K")]⟩ :
      Relationship) ∈
      resolve_function_calls symsWithClassK [] fnCallingK "m.py" [] none :=
  ⟨by decide,
    (C2_call_edges symsWithClassK [] [] fnCallingK "m.py" none).1 "K" (by decide)
      "m.py::K" (by decide)⟩

/-- C2 is false as stated: here the call name `K` resolves to a target whose
symbol-table kind is `class`, yet pass 3 emits only the CALLS edge — no
INSTANTIATES edge accompanies it. -/
theorem C2_counterexample :
    resolve_function_calls symsWithClassK [] fnCallingK "m.py" [] none =
      [⟨"m.py::f", "m.py::K", RelType.calls, [("call_name", PropVal.s "K")]⟩]
  ∧ (dlookup symsWithClassK "m.py::K").map SymbolEntry.kind = some "class"
  ∧ ∀ r ∈ resolve_function_calls symsWithClassK [] fnCallingK "m.py" [] none,
      r.relationship_type ≠ RelType.instantiates := by
  decide

/-! ## Definition extraction (`ProjectParser`, C3)

The mutually recursive `_extract_from_block` / `_process_definition` /
`_parse_class` are embedded with a structural fuel argument (every concrete
run below uses ample fuel); state threading replaces the Python object
mutation of `module`, `self.symbols`, `self.qualified_to_id` and the
class record under construction (`parent_class`). -/

/-- Python `str.isupper` (ASCII letters). -/
def pyIsUpper (s : String) : Bool :=
  s.data.any Char.isAlpha && s.data.all (fun c => !c.isAlpha || c.isUpper)

/-- Loop body of `ProjectParser._parse_decorator`: the first
identifier/call/attribute child wins; a `call` without a `function` field
falls through to the next child. -/
def pj_parse_decorator_go : PNodes → Option DecoratorInfo
  | .pnil => none
  | .pcons child rest =>
    if child.ty = "identifier" then some ⟨child.text, []⟩
    else if child.ty = "call" then
      match child.childByField "function" with
      | some func =>
        let args :=
          match child.childByField "arguments" with
          | some args_node => args_node.children.toList.filterMap (fun arg =>
              if arg.ty ≠ "(" ∧ arg.ty ≠ ")" ∧ arg.ty ≠ "," then some arg.text else none)
          | none => []
        some ⟨func.text, args⟩
      | none => pj_parse_decorator_go rest
    else if child.ty = "attribute" then some ⟨child.text, []⟩
    else pj_parse_decorator_go rest

/-- `ProjectParser._parse_decorator`. -/
def pj_parse_decorator (node : PNode) : Option DecoratorInfo :=
  pj_parse_decorator_go node.children

/-- `node.child_by_field_name(f) or node.children[0]`. -/
def fieldOrChild0 (node : PNode) (fname : String) : Option PNode :=
  match node.childByField fname with
  | some n => some n
  | none => node.children.get? 0

/-- The first `identifier` child (the splat-pattern loops of
`_parse_single_parameter`). -/
def firstIdentText : PNodes → Option String
  | .pnil => none
  | .pcons c cs => if c.ty = "identifier" then some c.text else firstIdentText cs

/-- `ProjectParser._parse_single_parameter` (returns `none` for an empty
name and for `self`/`cls`). -/
def pj_parse_single_parameter (node : PNode) : Option ParameterInfo :=
  let raw : Option ParameterInfo :=
    if node.ty = "identifier" then some ⟨node.text, none, none, false, false⟩
    else if node.ty = "typed_parameter" then
      match fieldOrChild0 node "name" with
      | some n => some ⟨n.text, (node.childByField "type").map PNode.text, none, false, false⟩
      | none => none
    else if node.ty = "default_parameter" then
      match fieldOrChild0 node "name" with
      | some n => some ⟨n.text, none, (node.childByField "value").map PNode.text, false, false⟩
      | none => none
    else if node.ty = "typed_default_parameter" then
      match fieldOrChild0 node "name" with
      | some n => some ⟨n.text, (node.childByField "type").map PNode.text,
          (node.childByField "value").map PNode.text, false, false⟩
      | none => none
    else if node.ty = "list_splat_pattern" then
      match firstIdentText node.children with
      | some nm => some ⟨nm, none, none, true, false⟩
      | none => none
    else if node.ty = "dictionary_splat_pattern" then
      match firstIdentText node.children with
      | some nm => some ⟨nm, none, none, false, true⟩
      | none => none
    else none
  match raw with
  | some p => if p.name = "" ∨ p.name = "self" ∨ p.name = "cls" then none else some p
  | none => none

/-- `ProjectParser._parse_parameters`. -/
def pj_parse_parameters (node : PNode) : List ParameterInfo :=
  node.children.toList.filterMap (fun child =>
    if child.ty = "identifier" ∨ child.ty = "typed_parameter" ∨
        child.ty = "default_parameter" ∨ child.ty = "typed_default_parameter" ∨
        child.ty = "list_splat_pattern" ∨ child.ty = "dictionary_splat_pattern" then
      pj_parse_single_parameter child
    else none)

/-- Loop body of `ProjectParser._extract_block_docstring` (skips `comment`
and `pass_statement`; a non-string or non-quoted expression statement does
not stop the scan). -/
def pj_block_docstring_go : PNodes → Option String
  | .pnil => none
  | .pcons child rest =>
    if child.ty = "expression_statement" then
      match child.children.get? 0 with
      | some expr =>
        if expr.ty = "string" then
          let text := expr.text
          if pyStartsWith text "\"\"\"" || pyStartsWith text tripleSquote then
            some (pyStrip (cutEnds text 3))
          else if pyStartsWith text "\"" || pyStartsWith text singleSquote then
            some (pyStrip (cutEnds text 1))
          else pj_block_docstring_go rest
        else pj_block_docstring_go rest
      | none => pj_block_docstring_go rest
    else if child.ty = "comment" ∨ child.ty = "pass_statement" then
      pj_block_docstring_go rest
    else none

mutual
/-- The walker of `ProjectParser._extract_calls_from_block` (recurses into
every child, nested definitions included). -/
def pjCallsWalk : PNode → List String
  | .mk ty _ fs cs =>
    (if ty = "call" then
      match fs.find "function" with
      | some func_node =>
        if func_node.ty = "identifier" ∨ func_node.ty = "attribute" then [func_node.text]
        else []
      | none => []
     else [])
    ++ pjCallsWalkList cs
def pjCallsWalkList : PNodes → List String
  | .pnil => []
  | .pcons c cs => pjCallsWalk c ++ pjCallsWalkList cs
end

/-- `ProjectParser._extract_calls_from_block`. -/
def pj_extract_calls_from_block (block : PNode) : List String :=
  pjCallsWalk block

/-- `ProjectParser._parse_variable` (the initial value is truncated to 100
characters; the scope field keeps its dataclass default, the caller sets
it). -/
def pj_parse_variable (node : PNode) (file_id parent_qualified : String) :
    Option VariableInfo :=
  match node.childByField "left" with
  | some left =>
    if left.ty = "identifier" then
      let name := left.text
      let initial_value := (node.childByField "right").map
        (fun r => String.mk (r.text.data.take 100))
      let type_hint := (node.childByField "type").map PNode.text
      let var_id :=
        if parent_qualified = "" then file_id ++ "::" ++ name
        else file_id ++ "::" ++ (pySplitDot parent_qualified).getLastD "" ++ "::" ++ name
      some ⟨var_id, name, type_hint, initial_value, "module", pyIsUpper name⟩
    else none
  | none => none

/-- `ProjectParser._parse_function`. -/
def pj_parse_function (node : PNode) (file_id parent_qualified : String)
    (is_method : Bool) (decorators : List DecoratorInfo) : Option FunctionInfo :=
  match node.childByField "name" with
  | none => none
  | some name_node =>
    let name := name_node.text
    let qualified_name :=
      if parent_qualified ≠ "" then parent_qualified ++ "." ++ name else name
    let func_id :=
      if parent_qualified = "" then file_id ++ "::" ++ name
      else file_id ++ "::" ++ (pySplitDot parent_qualified).getLastD "" ++ "::" ++ name
    let params :=
      match node.childByField "parameters" with
      | some pn => pj_parse_parameters pn
      | none => []
    let return_type := (node.childByField "return_type").map PNode.text
    let is_async := node.children.toList.any (fun c => c.ty == "async")
    let body_node := node.childByField "body"
    let docstring :=
      match body_node with
      | some b => pj_block_docstring_go b.children
      | none => none
    let is_classmethod := decorators.any (fun d => d.name == "classmethod")
    let is_staticmethod := decorators.any (fun d => d.name == "staticmethod")
    let is_property := decorators.any (fun d => d.name == "property")
    let calls :=
      match body_node with
      | some b => pj_extract_calls_from_block b
      | none => []
    let complexity :=
      match body_node with
      | some b => pp_calculate_complexity b
      | none => 1
    some ⟨func_id, name, qualified_name, params, return_type, decorators, docstring,
      is_async, false, is_method, is_classmethod, is_staticmethod, is_property,
      complexity, [], calls, ""⟩

def ClassInfo.addMethod : ClassInfo → FunctionInfo → ClassInfo
  | .mk i n q b d doc ab m cv iv nc rb, f => .mk i n q b d doc ab (m ++ [f]) cv iv nc rb

def ClassInfo.addClassVar : ClassInfo → VariableInfo → ClassInfo
  | .mk i n q b d doc ab m cv iv nc rb, v => .mk i n q b d doc ab m (cv ++ [v]) iv nc rb

def ClassInfo.setDoc : ClassInfo → Option String → ClassInfo
  | .mk i n q b d _ ab m cv iv nc rb, doc => .mk i n q b d doc ab m cv iv nc rb

/-- The analyzer state the extraction mutates: the module under
construction, the symbol table, and the qualified-name index. -/
structure PJState where
  module : ModuleInfo
  symbols : List (String × SymbolEntry)
  qualified_to_id : List (String × String)
deriving DecidableEq

/-- The variable branch of `_extract_from_block` (one `assignment` child of
an `expression_statement`). -/
def pj_handle_assignment_sub (file_id parent_qualified : String)
    (acc : PJState × Option ClassInfo) (sub : PNode) : PJState × Option ClassInfo :=
  if sub.ty = "assignment" then
    match pj_parse_variable sub file_id parent_qualified with
    | some var0 =>
      match acc.2 with
      | some cls =>
        let var := { var0 with scope := "class" }
        let entry : SymbolEntry :=
          ⟨var.id, var.name, "variable", acc.1.module.path,
            if parent_qualified ≠ "" then parent_qualified ++ "." ++ var.name
            else var.name,
            some file_id⟩
        ({ acc.1 with symbols := dput acc.1.symbols var.id entry },
          some (cls.addClassVar var))
      | none =>
        let var := { var0 with scope := "module" }
        let entry : SymbolEntry :=
          ⟨var.id, var.name, "variable", acc.1.module.path,
            if parent_qualified ≠ "" then parent_qualified ++ "." ++ var.name
            else var.name,
            some file_id⟩
        ({ acc.1 with
            module :=
              { acc.1.module with «variables» := acc.1.module.«variables» ++ [var] }
            symbols := dput acc.1.symbols var.id entry },
          none)
    | none => acc
  else acc

/-- The `expression_statement` branch of `_extract_from_block`. -/
def pj_handle_expression (child : PNode) (file_id parent_qualified : String)
    (acc : PJState × Option ClassInfo) : PJState × Option ClassInfo :=
  child.children.toList.foldl (pj_handle_assignment_sub file_id parent_qualified) acc

mutual
/-- `ProjectParser._extract_from_block`, iterating the children with the
pending decorator list. -/
def pj_extract_block_go : Nat → PNodes → String → String → PJState →
    Option ClassInfo → List DecoratorInfo → PJState × Option ClassInfo
  | 0, _, _, _, st, pc, _ => (st, pc)
  | Nat.succ _, .pnil, _, _, st, pc, _ => (st, pc)
  | Nat.succ n, .pcons child rest, file_id, parent_qualified, st, pc, pending =>
    if child.ty = "decorator" then
      let pending2 :=
        match pj_parse_decorator child with
        | some dec => pending ++ [dec]
        | none => pending
      pj_extract_block_go n rest file_id parent_qualified st pc pending2
    else if child.ty = "decorated_definition" then
      let decs := child.children.toList.filterMap
        (fun sub => if sub.ty = "decorator" then pj_parse_decorator sub else none)
      let target :=
        (child.children.toList.filter (fun sub => sub.ty ≠ "decorator")).getLast?
      let out :=
        match target with
        | some t => pj_process_definition n t file_id parent_qualified st pc decs
        | none => (st, pc)
      pj_extract_block_go n rest file_id parent_qualified out.1 out.2 []
    else if child.ty = "function_definition" ∨ child.ty = "class_definition" then
      let out := pj_process_definition n child file_id parent_qualified st pc pending
      pj_extract_block_go n rest file_id parent_qualified out.1 out.2 []
    else if child.ty = "expression_statement" then
      let out := pj_handle_expression child file_id parent_qualified (st, pc)
      pj_extract_block_go n rest file_id parent_qualified out.1 out.2 pending
    else
      pj_extract_block_go n rest file_id parent_qualified st pc pending

/-- `ProjectParser._process_definition`.  Note the class branch: the parsed
class is appended to `module.classes` whatever the `parent_class` context,
and the `parent_class` record is left untouched. -/
def pj_process_definition : Nat → PNode → String → String → PJState →
    Option ClassInfo → List DecoratorInfo → PJState × Option ClassInfo
  | 0, _, _, _, st, pc, _ => (st, pc)
  | Nat.succ n, node, file_id, parent_qualified, st, pc, decorators =>
    if node.ty = "function_definition" then
      match pj_parse_function node file_id parent_qualified pc.isSome decorators with
      | some func =>
        match pc with
        | some cls =>
          let entry : SymbolEntry :=
            ⟨func.id, func.name, if func.is_method then "method" else "function",
              st.module.path, func.qualified_name, some cls.id⟩
          ({ st with
              symbols := dput st.symbols func.id entry
              qualified_to_id := dput st.qualified_to_id func.qualified_name func.id },
            some (cls.addMethod func))
        | none =>
          let entry : SymbolEntry :=
            ⟨func.id, func.name, if func.is_method then "method" else "function",
              st.module.path, func.qualified_name, some file_id⟩
          ({ st with
              module := { st.module with functions := st.module.functions ++ [func] }
              symbols := dput st.symbols func.id entry
              qualified_to_id := dput st.qualified_to_id func.qualified_name func.id },
            pc)
      | none => (st, pc)
    else if node.ty = "class_definition" then
      let out := pj_parse_class n node file_id parent_qualified st decorators
      match out.2 with
      | some cls =>
        let entry : SymbolEntry :=
          ⟨cls.id, cls.name, "class", out.1.module.path, cls.qualified_name,
            some file_id⟩
        ({ out.1 with
            module := { out.1.module with classes := out.1.module.classes ++ [cls] }
            symbols := dput out.1.symbols cls.id entry
            qualified_to_id := dput out.1.qualified_to_id cls.qualified_name cls.id },
          pc)
      | none => (out.1, pc)
    else (st, pc)

/-- `ProjectParser._parse_class`.  The class ID is `file_id::name` and the
qualified name is `module.qualified_name.name` — the enclosing class scope
(`parent_qualified`) is not used for either. -/
def pj_parse_class : Nat → PNode → String → String → PJState →
    List DecoratorInfo → PJState × Option ClassInfo
  | 0, _, _, _, st, _ => (st, none)
  | Nat.succ n, node, file_id, _parent_qualified, st, decorators =>
    match node.childByField "name" with
    | none => (st, none)
    | some name_node =>
      let name := name_node.text
      let qualified_name := st.module.qualified_name ++ "." ++ name
      let class_id := file_id ++ "::" ++ name
      let bases :=
        match node.childByField "superclasses" with
        | some bn => bn.children.toList.filterMap (fun c =>
            if c.ty = "identifier" ∨ c.ty = "attribute" then some c.text else none)
        | none => []
      let is_abstract :=
        decorators.any (fun d =>
          d.name == "abstractmethod" || d.name == "ABC" || d.name == "ABCMeta")
        || bases.any (fun b => b == "ABC" || b == "ABCMeta")
      let cls : ClassInfo :=
        .mk class_id name qualified_name bases decorators none is_abstract [] [] []
          .nil []
      match node.childByField "body" with
      | some body =>
        let cls2 := cls.setDoc (pj_block_docstring_go body.children)
        let out := pj_extract_block_go n body.children file_id qualified_name st
          (some cls2) []
        match out.2 with
        | some c => (out.1, some c)
        | none => (out.1, some cls2)
      | none => (st, some cls)
end

/-- `ProjectParser._extract_definitions`. -/
def pj_extract_definitions (fuel : Nat) (root : PNode) (file_id : String)
    (st : PJState) : PJState :=
  (pj_extract_block_go fuel root.children file_id "" st none []).1

/-- A class-definition node `class <cname>: <body>`. -/
def classDefNode (cname : String) (body : PNode) : PNode :=
  .mk "class_definition" ("class " ++ cname)
    (pfieldsOf [("name", idNode cname), ("body", body)])
    (pnodesOf [tokNode "class", idNode cname, tokNode ":", body])

/-- The body `pass`. -/
def passBodyNode : PNode := .mk "block" "pass" .fnil (pnodesOf [passNode])

/-- The module tree of `class C:` containing `class N: pass`. -/
def nestedClassRoot (nC nN : String) : PNode :=
  .mk "module" "" .fnil
    (pnodesOf [classDefNode nC
      (.mk "block" "" .fnil (pnodesOf [classDefNode nN passBodyNode]))])

/-- A fresh analyzer state for file `fid`, module name `mname`, no
package. -/
def pjInitState (fid mname : String) : PJState :=
  ⟨⟨fid, fid, mname, "", none, [], [], [], [], 1⟩, [], []⟩

/-- C3 (amended): for a class `N` defined in the body of class `C` in the
module with file id `M`, the analyzer assigns `N` the ID `M::N` (not
`M::C::N`), gives it the qualified name `module.N` (not `module.C.N`), and
appends it to the module's top-level class list — `nested_classes` stays
empty for every parsed class. -/
theorem C3_nested_class_flat (fid mname nC nN : String) :
    ((pj_extract_definitions 20 (nestedClassRoot nC nN) fid
        (pjInitState fid mname)).module.classes.map ClassInfo.id =
      [fid ++ "::" ++ nN, fid ++ "::" ++ nC])
  ∧ ((pj_extract_definitions 20 (nestedClassRoot nC nN) fid
        (pjInitState fid mname)).module.classes.map ClassInfo.qualified_name =
      [mname ++ "." ++ nN, mname ++ "." ++ nC])
  ∧ ((pj_extract_definitions 20 (nestedClassRoot nC nN) fid
        (pjInitState fid mname)).module.classes.map ClassInfo.nested_classes =
      [ClassInfos.nil, ClassInfos.nil]) := by
  exact ⟨rfl, rfl, rfl⟩

/-- The concrete run of the two-level class tree `class C: class N: pass`
in module `m.py`. -/
def c3run : PJState :=
  pj_extract_definitions 20 (nestedClassRoot "C" "N") "m.py" (pjInitState "m.py" "m")

/-- C3 is false as stated: the nested class `N` gets ID `m.py::N`, the ID
`m.py::C::N` exists nowhere (class list or symbol table), `N` is recorded
as a top-level class of the module, and `C.nested_classes` is empty. -/
theorem C3_counterexample :
    c3run.module.classes.map ClassInfo.id = ["m.py::N", "m.py::C"]
  ∧ "m.py::C::N" ∉ c3run.module.classes.map ClassInfo.id
  ∧ dlookup c3run.symbols "m.py::C::N" = none
  ∧ c3run.module.classes.map ClassInfo.nested_classes =
      [ClassInfos.nil, ClassInfos.nil] := by
  decide
